import Mathlib

/-!
Verification of the compiletest harness core: directive scanning and parsing
(header.rs), expected-error matching, output normalization, compile-fail
dispatch, auxiliary crate-type selection and abbreviated pipe capture
(runtest.rs).

Strings of the Rust source are modelled as lists of characters. Byte-wise
lexicographic comparison of UTF-8 encoded strings coincides with
character-wise (code point) comparison, which the model uses. Files are
modelled as the list of their lines, as produced by BufRead::lines.
Functions that can panic return Option, with none standing for the panic.
-/

namespace Compiletest

/-- Character strings of the modelled program. -/
abbrev Str := List Char

/-- Whitespace as recognised by trim, trim_left, trim_right and
split_whitespace. -/
def isWs (c : Char) : Bool := c == ' ' || c == '\t' || c == '\n' || c == '\r'

/-- Rust str::starts_with. -/
def starts_with : Str → Str → Bool
  | _, [] => true
  | [], _ :: _ => false
  | c :: s, p :: ps => c == p && starts_with s ps

/-- Rust str::find of a single character, as an index. -/
def find_char (c : Char) : Str → Option Nat
  | [] => none
  | x :: s => if x == c then some 0 else (find_char c s).map (· + 1)

/-- Rust str::contains of a substring pattern. -/
def contains_sub : Str → Str → Bool
  | [], p => starts_with [] p
  | x :: s, p => starts_with (x :: s) p || contains_sub s p

/-- Byte-wise lexicographic comparison of Rust str values. -/
def str_lt : Str → Str → Bool
  | _, [] => false
  | [], _ :: _ => true
  | a :: s, b :: t => Nat.blt a.toNat b.toNat || (a == b && str_lt s t)

/-- Rust str::trim_left (drop leading whitespace). -/
def strTrimLeft (s : Str) : Str := s.dropWhile isWs

/-- Rust str::trim_right (drop trailing whitespace). -/
def strTrimRight (s : Str) : Str := (s.reverse.dropWhile isWs).reverse

/-- Rust str::trim. -/
def strTrim (s : Str) : Str := strTrimLeft (strTrimRight s)

/-- The token after the last space: rsplit of a space, first element. -/
def last_split_tok (s : Str) : Str :=
  (s.reverse.takeWhile (fun c => !(c == ' '))).reverse

/-- Accumulator pass of split_whitespace; acc holds the current token
reversed. -/
def sw_aux : Str → Str → List Str
  | [], acc => if acc.isEmpty then [] else [acc.reverse]
  | c :: s, acc =>
    if isWs c then
      (if acc.isEmpty then sw_aux s [] else acc.reverse :: sw_aux s [])
    else sw_aux s (c :: acc)

/-- Rust str::split_whitespace: maximal nonempty runs of non-whitespace. -/
def split_whitespace (s : Str) : List Str := sw_aux s []

/-- Replacement scan of str::replace for a nonempty pattern. The fuel is the
length of the remaining input, which bounds the recursion. -/
def replace_go (p r : Str) : Nat → Str → Str
  | _, [] => []
  | 0, s => s
  | fuel + 1, c :: s =>
    if starts_with (c :: s) p then r ++ replace_go p r fuel (s.drop (p.length - 1))
    else c :: replace_go p r fuel s

/-- Rust str::replace: every non-overlapping occurrence of p, scanning left
to right, is replaced by r. An empty pattern matches at every boundary. -/
def replace_str (s p r : Str) : Str :=
  if p.isEmpty then r ++ s.foldr (fun c acc => c :: (r ++ acc)) []
  else replace_go p r s.length s

/-- Rust Iterator::position. -/
def position {α : Type} (p : α → Bool) : List α → Option Nat
  | [] => none
  | x :: s => if p x then some 0 else (position p s).map (· + 1)

/-- Global configuration. The fields mirror common::Config as consumed by
header.rs and runtest.rs.
Modelled from the spec: the function-valued fields stand for helpers that
are not among the sources: util::matches_os, util::get_arch,
util::get_pointer_width, util::get_env (util.rs is absent) compare a
directive tag against the operating system, architecture, pointer width and
environment of the target triple, and env_var is the ambient process
environment consulted by env::var and env::current_dir (the cwd field). -/
structure Config where
  target : Str
  host : Str
  stage_id : Str
  system_llvm : Bool
  llvm_version : Option Str
  src_base : Str
  build_base : Str
  cwd : Str
  matches_os : Str → Str → Bool
  get_arch : Str → Str
  get_pointer_width : Str → Str
  get_env : Str → Option Str
  env_var : Str → Option Str

/-- Variable expansion in name-value directives: the literals for cwd,
src-base and build-base are replaced when present. -/
def expand_variables (value : Str) (config : Config) : Str :=
  let cwd_lit := ("\x7b\x7bcwd\x7d\x7d").toList
  let src_lit := ("\x7b\x7bsrc-base\x7d\x7d").toList
  let build_lit := ("\x7b\x7bbuild-base\x7d\x7d").toList
  let value := if contains_sub value cwd_lit then replace_str value cwd_lit config.cwd else value
  let value := if contains_sub value src_lit then replace_str value src_lit config.src_base else value
  let value := if contains_sub value build_lit then replace_str value build_lit config.build_base else value
  value

/-- Config::parse_name_value_directive. -/
def parse_name_value_directive (config : Config) (line directive : Str) : Option Str :=
  let colon := directive.length
  if starts_with line directive && (line)[colon]? == some ':' then
    some (expand_variables (line.drop (colon + 1)) config)
  else none

/-- Config::parse_name_directive: the directive must be a whole word,
followed by nothing, a space or a colon. -/
def parse_name_directive (line directive : Str) : Bool :=
  starts_with line directive &&
    (match (line)[directive.length]? with
     | none => true
     | some ' ' => true
     | some ':' => true
     | _ => false)

/-- Config::parse_cfg_name_directive: a name directive carrying a config
suffix, e.g. ignore-test. The byte after the name must be a dash; the tag is
matched against the configuration. -/
def parse_cfg_name_directive (config : Config) (line pre : Str) : Bool :=
  if starts_with line pre && (line)[pre.length]? == some '-' then
    let name := (line.drop (pre.length + 1)).takeWhile (fun c => !(c == ':') && !(c == ' '))
    name == ("test").toList ||
      config.matches_os config.target name ||
      name == config.get_arch config.target ||
      name == config.get_pointer_width config.target ||
      name == config.stage_id.takeWhile (fun c => !(c == '-')) ||
      some name == config.get_env config.target ||
      (!(config.target == config.host) && name == ("cross-compile").toList)
  else false

/-- Result of the header scan loop body on a single line. -/
inductive HeaderAction where
  | stop
  | emit (s : Str)
  | skip
  | malformed
deriving DecidableEq

/-- Loop body of iter_header on one line: stop at the first declaration;
emit the body of a revision-tagged comment when the revision matches; emit
the body of a plain comment always; a tagged comment without a closing
bracket panics. -/
def iter_header_line (cfg : Option Str) (ln : Str) : HeaderAction :=
  let t := strTrim ln
  if starts_with t ['f', 'n'] || starts_with t ['m', 'o', 'd'] then .stop
  else if starts_with t ['/', '/', '['] then
    match find_char ']' t with
    | some close_brace =>
      let lncfg := (t.take close_brace).drop 3
      let mtch := match cfg with
                  | some s => s == lncfg
                  | none => false
      if mtch then .emit (strTrimLeft (t.drop (close_brace + 1))) else .skip
    | none => .malformed
  else if starts_with t ['/', '/'] then .emit (strTrimLeft (t.drop 2))
  else .skip

/-- iter_header over a file given as its lines, returning the sequence of
directive strings passed to the callback; none models the panic on a
malformed condition directive. -/
def iter_header (cfg : Option Str) : List Str → Option (List Str)
  | [] => some []
  | ln :: rest =>
    match iter_header_line cfg ln with
    | .stop => some []
    | .emit s => (iter_header cfg rest).map (s :: ·)
    | .skip => iter_header cfg rest
    | .malformed => none

/-- Early properties known before running the test. -/
structure EarlyProps where
  ignore : Bool
  should_fail : Bool
  aux : List Str
deriving DecidableEq

/-- The LLVM-version gate of EarlyProps::from_file. -/
def ignore_llvm (config : Config) (line : Str) : Bool :=
  if config.system_llvm && starts_with line ("no-system-llvm").toList then true
  else
    match config.llvm_version with
    | some actual_version =>
      if starts_with line ("min-llvm-version").toList then
        str_lt actual_version (last_split_tok (strTrimRight line))
      else if starts_with line ("min-system-llvm-version").toList then
        !(config.system_llvm && str_lt actual_version (last_split_tok (strTrimRight line)))
      else false
    | none => false

/-- Config::parse_aux_build. -/
def parse_aux_build (config : Config) (line : Str) : Option Str :=
  parse_name_value_directive config line ("aux-build").toList

/-- Callback body of EarlyProps::from_file for one directive line. -/
def early_step (config : Config) (props : EarlyProps) (ln : Str) : EarlyProps :=
  { ignore := props.ignore || parse_cfg_name_directive config ln ("ignore").toList ||
      ignore_llvm config ln,
    should_fail := props.should_fail || parse_name_directive ln ("should-fail").toList,
    aux := props.aux ++ (parse_aux_build config ln).toList }

/-- EarlyProps::from_file over the lines of a test file. -/
def EarlyProps.from_file (config : Config) (lines : List Str) : Option EarlyProps :=
  (iter_header none lines).map (fun es => es.foldl (early_step config) ⟨false, false, []⟩)

/-- Diagnostic kinds.
Modelled from the spec: errors::ErrorKind (errors.rs is not among the
sources); a kind is one of Help, Error, Note, Suggestion, Warning. -/
inductive ErrorKind where
  | Help
  | Error
  | Note
  | Suggestion
  | Warning
deriving DecidableEq

/-- A diagnostic: 1-based line number, optional kind, message.
Modelled from the spec: errors::Error (errors.rs is not among the sources);
an expected error is keyed by line number, optional kind and message
substring, and parsed actual diagnostics are flattened to the same form. -/
structure Error where
  line_num : Nat
  kind : Option ErrorKind
  msg : Str
deriving DecidableEq

/-- Exit status of a child process: the success flag and the exit code. -/
structure ProcStatus where
  success : Bool
  code : Option Int
deriving DecidableEq

/-- Outcome of run_cfail_test up to the choice of diagnostic check: the
fatal constructors name the harness error raised, the check constructors
name the check the test proceeds with. -/
inductive CfailOutcome where
  | fatalCompileFailed
  | fatalCompileSucceeded
  | fatalWrongStatus
  | fatalBothSpecified
  | checkExpectedErrors
  | checkErrorPatterns
deriving DecidableEq

/-- TestCx::run_cfail_test, modelled up to the dispatch between
check_expected_errors and check_error_patterns; the later
check_no_compiler_crash and check_forbid_output steps do not affect which
check runs and are omitted from the outcome. -/
def run_cfail_test (must_compile_successfully : Bool) (error_patterns : List Str)
    (expected_errors : List Error) (status : ProcStatus) : CfailOutcome :=
  let dispatch : CfailOutcome :=
    if !expected_errors.isEmpty then
      if !error_patterns.isEmpty then .fatalBothSpecified
      else .checkExpectedErrors
    else .checkErrorPatterns
  if must_compile_successfully then
    if !status.success then .fatalCompileFailed else dispatch
  else
    if status.success then .fatalCompileSucceeded
    else if !(status.code == some 101) then .fatalWrongStatus
    else dispatch

/-- Crate-type override chosen for an auxiliary build inside
TestCx::compose_and_run_compiler. -/
def aux_crate_type (no_prefer_dynamic force_host : Bool) (target : Str) : Option Str :=
  if no_prefer_dynamic then none
  else if (contains_sub target (("musl").toList) && !force_host) ||
      contains_sub target (("wasm32").toList) ||
      contains_sub target (("emscripten").toList) then some (("lib").toList)
  else some (("dylib").toList)

/-- Rust slice join with a single-space separator. -/
def join_space (parts : List Str) : Str := List.intercalate [' '] parts

/-- Whether the compile flags select a JSON error format. -/
def is_json (compile_flags : List Str) : Bool :=
  let cflags := join_space compile_flags
  contains_sub cflags (("--error-format json").toList) ||
    contains_sub cflags (("--error-format pretty-json").toList)

/-- The parent-directory string replaced by the DIR marker; in JSON mode
its backslashes are doubled first. -/
def parent_dir_str (parent_dir : Str) (compile_flags : List Str) : Str :=
  if is_json compile_flags then replace_str parent_dir ['\\'] ['\\', '\\'] else parent_dir

/-- The JSON stage of normalize_output: escaped newlines become real
newlines when the error format is JSON. -/
def norm_json_stage (json : Bool) (s : Str) : Str :=
  if json then replace_str s ['\\', 'n'] ['\n'] else s

/-- The fixed substitution chain of normalize_output: undouble backslashes,
backslash to slash, CRLF to LF, tab to the two-character backslash-t. -/
def norm_fixed_stages (s : Str) : Str :=
  replace_str (replace_str (replace_str (replace_str s
    ['\\', '\\'] ['\\']) ['\\'] ['/']) ['\r', '\n'] ['\n']) ['\t'] ['\\', 't']

/-- TestCx::normalize_output: the parent-directory path becomes the DIR
marker, then the JSON stage, the fixed substitution chain and the user
substitution rules in directive order. -/
def normalize_output (parent_dir : Str) (compile_flags : List Str)
    (custom_rules : List (Str × Str)) (output : Str) : Str :=
  let json := is_json compile_flags
  let normalized := replace_str output (parent_dir_str parent_dir compile_flags) (("$DIR").toList)
  let normalized := norm_json_stage json normalized
  let normalized := norm_fixed_stages normalized
  custom_rules.foldl (fun acc rule => replace_str acc rule.1 rule.2) normalized

/-- Full per-test properties parsed from directives. -/
structure TestProps where
  error_patterns : List Str
  compile_flags : List Str
  run_flags : Option Str
  aux_builds : List Str
  rustc_env : List (Str × Str)
  exec_env : List (Str × Str)
  check_lines : List Str
  build_aux_docs : Bool
  force_host : Bool
  check_stdout : Bool
  no_prefer_dynamic : Bool
  pretty_expanded : Bool
  pretty_compare_only : Bool
  forbid_output : List Str
  revisions : List Str
  must_compile_successfully : Bool
  check_test_line_numbers_match : Bool
  normalize_stdout : List (Str × Str)
  normalize_stderr : List (Str × Str)
deriving DecidableEq

/-- TestProps::new: the empty property set. -/
def TestProps.new : TestProps :=
  { error_patterns := [], compile_flags := [], run_flags := none, aux_builds := [],
    revisions := [], rustc_env := [], exec_env := [], check_lines := [],
    build_aux_docs := false, force_host := false, check_stdout := false,
    no_prefer_dynamic := false, pretty_expanded := false, pretty_compare_only := false,
    forbid_output := [], must_compile_successfully := false,
    check_test_line_numbers_match := false, normalize_stdout := [], normalize_stderr := [] }

/-- Config::parse_error_pattern. -/
def parse_error_pattern (config : Config) (line : Str) : Option Str :=
  parse_name_value_directive config line ("error-pattern").toList

/-- Config::parse_forbid_output. -/
def parse_forbid_output (config : Config) (line : Str) : Option Str :=
  parse_name_value_directive config line ("forbid-output").toList

/-- Config::parse_compile_flags. -/
def parse_compile_flags (config : Config) (line : Str) : Option Str :=
  parse_name_value_directive config line ("compile-flags").toList

/-- Config::parse_revisions. -/
def parse_revisions (config : Config) (line : Str) : Option (List Str) :=
  (parse_name_value_directive config line ("revisions").toList).map split_whitespace

/-- Config::parse_run_flags. -/
def parse_run_flags (config : Config) (line : Str) : Option Str :=
  parse_name_value_directive config line ("run-flags").toList

/-- Config::parse_check_line. -/
def parse_check_line (config : Config) (line : Str) : Option Str :=
  parse_name_value_directive config line ("check").toList

/-- Config::parse_force_host. -/
def parse_force_host (line : Str) : Bool :=
  parse_name_directive line ("force-host").toList

/-- Config::parse_build_aux_docs. -/
def parse_build_aux_docs (line : Str) : Bool :=
  parse_name_directive line ("build-aux-docs").toList

/-- Config::parse_check_stdout. -/
def parse_check_stdout (line : Str) : Bool :=
  parse_name_directive line ("check-stdout").toList

/-- Config::parse_no_prefer_dynamic. -/
def parse_no_prefer_dynamic (line : Str) : Bool :=
  parse_name_directive line ("no-prefer-dynamic").toList

/-- Config::parse_pretty_expanded. -/
def parse_pretty_expanded (line : Str) : Bool :=
  parse_name_directive line ("pretty-expanded").toList

/-- Config::parse_pretty_compare_only. -/
def parse_pretty_compare_only (line : Str) : Bool :=
  parse_name_directive line ("pretty-compare-only").toList

/-- Config::parse_must_compile_successfully. -/
def parse_must_compile_successfully (line : Str) : Bool :=
  parse_name_directive line ("must-compile-successfully").toList

/-- Config::parse_check_test_line_numbers_match. -/
def parse_check_test_line_numbers_match (line : Str) : Bool :=
  parse_name_directive line ("check-test-line-numbers-match").toList

/-- Config::parse_env: the value is KEY or KEY=VALUE; a missing value is
the empty string. -/
def parse_env (config : Config) (line name : Str) : Option (Str × Str) :=
  (parse_name_value_directive config line name).map (fun nv =>
    match find_char '=' nv with
    | none => (nv, [])
    | some i => (nv.take i, nv.drop (i + 1)))

/-- parse_normalization_string: the content of the next quoted string
together with the remainder of the line after its closing quote. -/
def parse_normalization_string (line : Str) : Option (Str × Str) :=
  match find_char '"' line with
  | none => none
  | some b =>
    let after := line.drop (b + 1)
    match find_char '"' after with
    | none => none
    | some e => some (after.take e, after.drop (e + 1))

/-- Config::parse_custom_normalization: a config-gated pair of quoted
strings. -/
def parse_custom_normalization (config : Config) (line pre : Str) : Option (Str × Str) :=
  if parse_cfg_name_directive config line pre then
    match parse_normalization_string line with
    | none => none
    | some (f, rest) =>
      match parse_normalization_string rest with
      | none => none
      | some (t, _) => some (f, t)
  else none

/-- Callback body of TestProps::load_from for one directive line. Every
statement of the source touches a distinct field and reads only that field
and the line, so the sequential updates are recorded as one simultaneous
record update, field by field in source order. -/
def load_from_step (config : Config) (p : TestProps) (ln : Str) : TestProps :=
  { error_patterns := p.error_patterns ++ (parse_error_pattern config ln).toList,
    compile_flags := p.compile_flags ++
      (match parse_compile_flags config ln with
       | some flags => split_whitespace flags
       | none => []),
    revisions := p.revisions ++
      (match parse_revisions config ln with
       | some r => r
       | none => []),
    run_flags := if p.run_flags.isNone then parse_run_flags config ln else p.run_flags,
    build_aux_docs := if !p.build_aux_docs then parse_build_aux_docs ln else p.build_aux_docs,
    force_host := if !p.force_host then parse_force_host ln else p.force_host,
    check_stdout := if !p.check_stdout then parse_check_stdout ln else p.check_stdout,
    no_prefer_dynamic :=
      if !p.no_prefer_dynamic then parse_no_prefer_dynamic ln else p.no_prefer_dynamic,
    pretty_expanded :=
      if !p.pretty_expanded then parse_pretty_expanded ln else p.pretty_expanded,
    pretty_compare_only :=
      if !p.pretty_compare_only then parse_pretty_compare_only ln else p.pretty_compare_only,
    aux_builds := p.aux_builds ++ (parse_aux_build config ln).toList,
    exec_env := p.exec_env ++ (parse_env config ln ("exec-env").toList).toList,
    rustc_env := p.rustc_env ++ (parse_env config ln ("rustc-env").toList).toList,
    check_lines := p.check_lines ++ (parse_check_line config ln).toList,
    forbid_output := p.forbid_output ++ (parse_forbid_output config ln).toList,
    must_compile_successfully :=
      if !p.must_compile_successfully then parse_must_compile_successfully ln
      else p.must_compile_successfully,
    check_test_line_numbers_match :=
      if !p.check_test_line_numbers_match then parse_check_test_line_numbers_match ln
      else p.check_test_line_numbers_match,
    normalize_stdout := p.normalize_stdout ++
      (parse_custom_normalization config ln ("normalize-stdout").toList).toList,
    normalize_stderr := p.normalize_stderr ++
      (parse_custom_normalization config ln ("normalize-stderr").toList).toList }

/-- After parsing, any ambient value of the two reserved test variables is
appended to exec_env unless the test already set the key. -/
def apply_ambient_env (config : Config) (p : TestProps) : TestProps :=
  [("RUST_TEST_NOCAPTURE").toList, ("RUST_TEST_THREADS").toList].foldl
    (fun q key =>
      match config.env_var key with
      | some val =>
        if (q.exec_env.find? (fun kv => kv.1 == key)).isNone then
          { q with exec_env := q.exec_env ++ [(key, val)] }
        else q
      | none => q) p

/-- TestProps::from_file / load_from over the lines of a test file. -/
def TestProps.from_file (lines : List Str) (cfg : Option Str) (config : Config) :
    Option TestProps :=
  (iter_header cfg lines).map
    (fun es => apply_ambient_env config (es.foldl (load_from_step config) TestProps.new))

/-- The boolean properties of a property set, bundled. -/
def bools_of (p : TestProps) :
    Bool × Bool × Bool × Bool × Bool × Bool × Bool × Bool :=
  (p.build_aux_docs, p.force_host, p.check_stdout, p.no_prefer_dynamic,
   p.pretty_expanded, p.pretty_compare_only, p.must_compile_successfully,
   p.check_test_line_numbers_match)

/-- Whether a line stops the header scan (its trimmed text begins a
function or module declaration). -/
def line_stops (l : Str) : Bool :=
  starts_with (strTrim l) ['f', 'n'] || starts_with (strTrim l) ['m', 'o', 'd']

/-- Whether a header line neither stops the scan nor panics. -/
def header_line_ok (cfg : Option Str) (l : Str) : Bool :=
  match iter_header_line cfg l with
  | .stop => false
  | .malformed => false
  | _ => true

/-- The directive strings emitted for a list of header lines, ignoring the
stop condition. -/
def emits_of (cfg : Option Str) (ls : List Str) : List Str :=
  ls.filterMap (fun l =>
    match iter_header_line cfg l with
    | .emit s => some s
    | _ => none)

/-- The matching condition of check_expected_errors: equal line number,
compatible kind, and the expected message occurs in the actual message. -/
def error_match (expected_error actual_error : Error) : Bool :=
  actual_error.line_num == expected_error.line_num &&
  (expected_error.kind.isNone || actual_error.kind == expected_error.kind) &&
  contains_sub actual_error.msg expected_error.msg

/-- The position scan of check_expected_errors: the first not-yet-found
expected entry matching the actual diagnostic. -/
def find_match_idx (expected : List Error) (found : List Bool) (actual : Error) :
    Option Nat :=
  position (fun ef => !ef.2 && error_match ef.1 actual) (expected.zip found)

/-- TestCx::is_unexpected_compiler_message. -/
def is_unexpected_compiler_message (actual_error : Error)
    (expect_help expect_note : Bool) : Bool :=
  match actual_error.kind with
  | some .Help => expect_help
  | some .Note => expect_note
  | some .Error => true
  | some .Warning => true
  | some .Suggestion => false
  | none => false

/-- Whether the test declares at least one expected help message. -/
def expect_help (expected_errors : List Error) : Bool :=
  expected_errors.any (fun ee => ee.kind == some ErrorKind.Help)

/-- Whether the test declares at least one expected note message. -/
def expect_note (expected_errors : List Error) : Bool :=
  expected_errors.any (fun ee => ee.kind == some ErrorKind.Note)

/-- Result of the matching loop of check_expected_errors: the index each
actual diagnostic matched (in actual order), the final found flags, and
the unexpected diagnostics reported. -/
structure CheckResult where
  assign : List (Option Nat)
  found : List Bool
  unexpected : List Error

/-- The matching loop of check_expected_errors over the actual
diagnostics. -/
def check_loop (expected : List Error) (eh en : Bool) :
    List Error → List Bool → CheckResult
  | [], found => ⟨[], found, []⟩
  | actual :: rest, found =>
    match find_match_idx expected found actual with
    | some index =>
      let r := check_loop expected eh en rest (found.set index true)
      ⟨some index :: r.assign, r.found, r.unexpected⟩
    | none =>
      let r := check_loop expected eh en rest found
      ⟨none :: r.assign, r.found,
        if is_unexpected_compiler_message actual eh en then actual :: r.unexpected
        else r.unexpected⟩

/-- TestCx::check_expected_errors, as the matching loop started on an
all-false found vector. -/
def check_expected_errors (expected actual_errors : List Error) : CheckResult :=
  check_loop expected (expect_help expected) (expect_note expected) actual_errors
    (List.replicate expected.length false)

/-- Verbatim head size of the abbreviated capture. -/
def HEAD_LEN : Nat := 160 * 1024

/-- Rolling tail size of the abbreviated capture. -/
def TAIL_LEN : Nat := 256 * 1024

/-- State of one captured pipe in read2_abbreviated. -/
inductive ProcOutput where
  | Full (bytes : List Nat)
  | Abbreviated (head : List Nat) (skipped : Nat) (tail : List Nat)

/-- Rust slice::rotate_left on a list. -/
def rotate_left_list (l : List Nat) (n : Nat) : List Nat :=
  l.drop (n % l.length) ++ l.take (n % l.length)

/-- ProcOutput::extend: append a chunk, switching to the abbreviated state
once the total exceeds head plus tail; in the abbreviated state the chunk
is copied over the front of the ring and the ring rotated, or the ring
replaced by the chunk tail when the chunk is larger than the ring. -/
def ProcOutput.extend : ProcOutput → List Nat → ProcOutput
  | .Full bytes, data =>
    let bytes2 := bytes ++ data
    let new_len := bytes2.length
    if new_len ≤ HEAD_LEN + TAIL_LEN then .Full bytes2
    else
      .Abbreviated (bytes2.take (new_len - TAIL_LEN)) (new_len - HEAD_LEN - TAIL_LEN)
        (bytes2.drop (new_len - TAIL_LEN))
  | .Abbreviated head skipped tail, data =>
    if data.length ≤ TAIL_LEN then
      .Abbreviated head (skipped + data.length)
        (rotate_left_list (data ++ tail.drop data.length) data.length)
    else
      .Abbreviated head (skipped + data.length) (data.drop (data.length - TAIL_LEN))

/-- The literal skipped-bytes marker, as bytes. -/
def skip_marker (skipped : Nat) : List Nat :=
  (("\n\n<<<<<< SKIPPED " ++ toString skipped ++ " BYTES >>>>>>\n\n").toList).map Char.toNat

/-- ProcOutput::into_bytes. -/
def ProcOutput.into_bytes : ProcOutput → List Nat
  | .Full bytes => bytes
  | .Abbreviated head skipped tail => head ++ skip_marker skipped ++ tail

/-- The final bytes captured from one pipe by read2_abbreviated, given the
sequence of data chunks the reader callback receives. -/
def read2_abbreviated (chunks : List (List Nat)) : List Nat :=
  (chunks.foldl ProcOutput.extend (.Full [])).into_bytes

/-- The stream length at the first moment the capture exceeds the limit
(the whole length when it never does), starting from acc bytes already
seen. -/
def cross_len : List (List Nat) → Nat → Nat
  | [], acc => acc
  | c :: cs, acc =>
    if acc + c.length ≤ HEAD_LEN + TAIL_LEN then cross_len cs (acc + c.length)
    else acc + c.length

/-- The abbreviated output shape asserted by the specification: the first
HEAD_LEN bytes verbatim, the marker, then the last TAIL_LEN bytes. -/
def spec_abbreviated (total : List Nat) : List Nat :=
  total.take HEAD_LEN ++ skip_marker (total.length - HEAD_LEN - TAIL_LEN) ++
    total.drop (total.length - TAIL_LEN)

/-- A configuration using system LLVM with the given version string. -/
def llvm_config (v : Str) : Config :=
  { target := ("x86_64-unknown-linux-gnu").toList,
    host := ("x86_64-unknown-linux-gnu").toList,
    stage_id := ("stage1-x86_64").toList,
    system_llvm := true,
    llvm_version := some v,
    src_base := [], build_base := [], cwd := [],
    matches_os := fun _ _ => false,
    get_arch := fun _ => [],
    get_pointer_width := fun _ => [],
    get_env := fun _ => none,
    env_var := fun _ => none }

end Compiletest

namespace Compiletest

/-- C1: on a header containing the directive min-system-llvm-version 8.0,
with system LLVM in use, the code leaves ignore false for configured
version 7.0 and sets ignore true for configured version 9.0 - the exact
opposite of the claim and of the comment in the source. -/
theorem c1_min_system_llvm_version_negated :
    (EarlyProps.from_file (llvm_config ("7.0").toList)
        [("// min-system-llvm-version 8.0").toList]).map (fun p => p.ignore) = some false ∧
    (EarlyProps.from_file (llvm_config ("9.0").toList)
        [("// min-system-llvm-version 8.0").toList]).map (fun p => p.ignore) = some true := by
  decide

/-- The LLVM gate never fires on the bare line "ignore". -/
theorem ignore_llvm_bare_ignore (config : Config) :
    ignore_llvm config (("ignore").toList) = false := by
  unfold ignore_llvm
  rw [show starts_with (("ignore").toList) (("no-system-llvm").toList) = false from rfl]
  simp only [Bool.and_false, Bool.false_eq_true, if_false]
  cases config.llvm_version with
  | none => rfl
  | some v =>
    rw [show starts_with (("ignore").toList) (("min-llvm-version").toList) = false from rfl,
        show starts_with (("ignore").toList) (("min-system-llvm-version").toList) = false from rfl]
    simp

/-- The early-props callback is the identity on the bare directive body
"ignore". -/
theorem early_step_bare_ignore (config : Config) (p : EarlyProps) :
    early_step config p (("ignore").toList) = p := by
  unfold early_step
  rw [ignore_llvm_bare_ignore,
      show parse_cfg_name_directive config (("ignore").toList) (("ignore").toList) = false from rfl,
      show parse_name_directive (("ignore").toList) (("should-fail").toList) = false from rfl,
      show parse_aux_build config (("ignore").toList) = none from rfl]
  cases p
  simp

/-- Inserting the line "// ignore" anywhere leaves the early-props fold
unchanged, for any starting accumulator. -/
theorem from_file_insert_aux (config : Config) (ls₂ : List Str) :
    ∀ (ls₁ : List Str) (p : EarlyProps),
      (iter_header none (ls₁ ++ ("// ignore").toList :: ls₂)).map
          (fun es => es.foldl (early_step config) p) =
        (iter_header none (ls₁ ++ ls₂)).map (fun es => es.foldl (early_step config) p) := by
  intro ls₁
  induction ls₁ with
  | nil =>
    intro p
    have hstep : iter_header none ((("// ignore").toList) :: ls₂) =
        (iter_header none ls₂).map ((("ignore").toList) :: ·) := rfl
    show (iter_header none ((("// ignore").toList) :: ls₂)).map _ =
      (iter_header none ls₂).map _
    rw [hstep]
    cases h : iter_header none ls₂ with
    | none => rfl
    | some es =>
      show some (List.foldl (early_step config) p ((("ignore").toList) :: es)) =
        some (List.foldl (early_step config) p es)
      rw [show List.foldl (early_step config) p ((("ignore").toList) :: es) =
          List.foldl (early_step config) (early_step config p (("ignore").toList)) es from rfl,
        early_step_bare_ignore]
  | cons l ls₁ ih =>
    intro p
    show (iter_header none (l :: (ls₁ ++ ("// ignore").toList :: ls₂))).map _ =
      (iter_header none (l :: (ls₁ ++ ls₂))).map _
    cases ha : iter_header_line none l with
    | stop => simp [iter_header, ha]
    | malformed => simp [iter_header, ha]
    | skip =>
      simp only [iter_header, ha]
      exact ih p
    | emit s =>
      simp only [iter_header, ha, Option.map_map]
      exact ih (early_step config p s)

/-- C10: the ignore flag is recognised only in the config-suffixed form: the
bare directive name with no dash after it never matches
parse_cfg_name_directive, and a header line consisting of the bare comment
"// ignore" has no effect at all on EarlyProps::from_file. -/
theorem c10_bare_ignore_no_effect :
    (∀ config : Config,
        parse_cfg_name_directive config (("ignore").toList) (("ignore").toList) = false) ∧
    (∀ (config : Config) (ls₁ ls₂ : List Str),
        EarlyProps.from_file config (ls₁ ++ ("// ignore").toList :: ls₂) =
          EarlyProps.from_file config (ls₁ ++ ls₂)) := by
  constructor
  · intro config; rfl
  · intro config ls₁ ls₂
    exact from_file_insert_aux config ls₂ ls₁ ⟨false, false, []⟩

/-- C7 counterexample: with both in-file expected errors and an
error-pattern directive present, run_cfail_test raises the fatal error
about both being specified instead of matching the expected errors, so the
claim fails for that combination. -/
theorem c7_both_specified_counterexample :
    run_cfail_test false [("p").toList] [⟨1, some ErrorKind.Error, ("m").toList⟩]
        ⟨false, some 101⟩ ≠ CfailOutcome.checkExpectedErrors := by
  decide

/-- C7 amended: after the compile-status checks pass, the harness matches
expected errors when they are present and no error-pattern directive is,
aborts with the both-specified fatal error when both are present, and
otherwise runs the error-pattern check. -/
theorem c7_cfail_dispatch_amended (mcs : Bool) (eps : List Str) (ees : List Error)
    (st : ProcStatus)
    (hreach : if mcs then st.success = true else st.success = false ∧ st.code = some 101) :
    (ees ≠ [] → eps = [] →
        run_cfail_test mcs eps ees st = CfailOutcome.checkExpectedErrors) ∧
    (ees ≠ [] → eps ≠ [] →
        run_cfail_test mcs eps ees st = CfailOutcome.fatalBothSpecified) ∧
    (ees = [] → run_cfail_test mcs eps ees st = CfailOutcome.checkErrorPatterns) := by
  cases mcs with
  | true =>
    have hs : st.success = true := hreach
    refine ⟨?_, ?_, ?_⟩
    · intro h1 h2
      simp [run_cfail_test, hs, h1, h2]
    · intro h1 h2
      simp [run_cfail_test, hs, h1, h2]
    · intro h1
      simp [run_cfail_test, hs, h1]
  | false =>
    obtain ⟨hs, hc⟩ := hreach
    refine ⟨?_, ?_, ?_⟩
    · intro h1 h2
      simp [run_cfail_test, hs, hc, h1, h2]
    · intro h1 h2
      simp [run_cfail_test, hs, hc, h1, h2]
    · intro h1
      simp [run_cfail_test, hs, hc, h1]

/-- C7 witness: a concrete failing compile with code 101 and a nonempty
expected-error list and no error patterns reaches the expected-error
matcher. -/
theorem c7_witness :
    run_cfail_test false [] [⟨1, some ErrorKind.Error, ("m").toList⟩] ⟨false, some 101⟩ =
      CfailOutcome.checkExpectedErrors :=
  (c7_cfail_dispatch_amended false [] [⟨1, some ErrorKind.Error, ("m").toList⟩]
      ⟨false, some 101⟩ ⟨rfl, rfl⟩).1 (by decide) rfl

/-- C8 counterexample: on a wasm32 target an auxiliary with force_host set
is still built as a plain library, not a dylib, so the claim that
force_host keeps it dynamic on all otherwise-static targets fails. -/
theorem c8_force_host_wasm_counterexample :
    aux_crate_type false true (("wasm32-unknown-unknown").toList) ≠
      some (("dylib").toList) := by
  decide

/-- C8 amended: no override under no_prefer_dynamic; dylib on targets whose
triple contains none of musl, wasm32, emscripten; plain lib on wasm32 or
emscripten targets regardless of force_host; and on musl-only targets
force_host keeps the auxiliary dynamic. -/
theorem c8_aux_crate_type_amended (target : Str) (npd fh : Bool) :
    (npd = true → aux_crate_type npd fh target = none) ∧
    (npd = false → contains_sub target (("musl").toList) = false →
      contains_sub target (("wasm32").toList) = false →
      contains_sub target (("emscripten").toList) = false →
      aux_crate_type npd fh target = some (("dylib").toList)) ∧
    (npd = false →
      (contains_sub target (("wasm32").toList) = true ∨
        contains_sub target (("emscripten").toList) = true) →
      aux_crate_type npd fh target = some (("lib").toList)) ∧
    (npd = false → contains_sub target (("musl").toList) = true →
      contains_sub target (("wasm32").toList) = false →
      contains_sub target (("emscripten").toList) = false →
      aux_crate_type npd fh target =
        (if fh then some (("dylib").toList) else some (("lib").toList))) := by
  refine ⟨?_, ?_, ?_, ?_⟩
  · intro h; simp [aux_crate_type, h]
  · intro h h1 h2 h3
    simp at h1 h2 h3
    simp [aux_crate_type, h, h1, h2, h3]
  · intro h h1
    rcases h1 with h1 | h1 <;> · simp at h1; simp [aux_crate_type, h, h1]
  · intro h h1 h2 h3
    simp at h1 h2 h3
    cases fh <;> simp [aux_crate_type, h, h1, h2, h3]

/-- C8 witness: a musl target with force_host set keeps the dylib
override. -/
theorem c8_witness :
    aux_crate_type false true (("x86_64-unknown-linux-musl").toList) =
      some (("dylib").toList) := by
  have h := (c8_aux_crate_type_amended (("x86_64-unknown-linux-musl").toList) false true).2.2.2
    rfl (by decide) (by decide) (by decide)
  simpa using h

/-- Every character of a replacement result comes from the input or from
the replacement string (scan form). -/
theorem mem_replace_go (p r : Str) :
    ∀ (fuel : Nat) (s : Str) (x : Char), x ∈ replace_go p r fuel s → x ∈ s ∨ x ∈ r := by
  intro fuel
  induction fuel with
  | zero =>
    intro s x hx
    cases s with
    | nil => simp [replace_go] at hx
    | cons c cs =>
      exact Or.inl hx
  | succ f ih =>
    intro s x hx
    cases s with
    | nil => simp [replace_go] at hx
    | cons c cs =>
      rw [replace_go] at hx
      split at hx
      · rcases List.mem_append.mp hx with hr | hrec
        · exact Or.inr hr
        · rcases ih _ x hrec with h' | h'
          · exact Or.inl (List.mem_cons_of_mem _ (List.drop_subset _ _ h'))
          · exact Or.inr h'
      · rcases List.mem_cons.mp hx with rfl | hrec
        · exact Or.inl (List.mem_cons_self _ _)
        · rcases ih cs x hrec with h' | h'
          · exact Or.inl (List.mem_cons_of_mem _ h')
          · exact Or.inr h'

/-- Every character of a replacement result comes from the input or from
the replacement string. -/
theorem mem_replace_str (s p r : Str) (x : Char) (h : x ∈ replace_str s p r) :
    x ∈ s ∨ x ∈ r := by
  unfold replace_str at h
  split at h
  · rcases List.mem_append.mp h with h' | h'
    · exact Or.inr h'
    · have aux : ∀ (t : Str), x ∈ t.foldr (fun ch acc => ch :: (r ++ acc)) [] →
          x ∈ t ∨ x ∈ r := by
        intro t
        induction t with
        | nil => intro hx; simp at hx
        | cons a as ihs =>
          intro hx
          rw [List.foldr_cons] at hx
          rcases List.mem_cons.mp hx with rfl | hx
          · exact Or.inl (List.mem_cons_self _ _)
          · rcases List.mem_append.mp hx with h'' | h''
            · exact Or.inr h''
            · rcases ihs h'' with h3 | h3
              · exact Or.inl (List.mem_cons_of_mem _ h3)
              · exact Or.inr h3
      exact aux s h'
  · exact mem_replace_go p r s.length s x h

/-- Characters absent from input and replacement are absent from the
result. -/
theorem not_mem_replace_str {c : Char} {s : Str} (p : Str) {r : Str}
    (hs : c ∉ s) (hr : c ∉ r) : c ∉ replace_str s p r :=
  fun h => (mem_replace_str s p r c h).elim (fun h' => hs h') (fun h' => hr h')

/-- Replacing a single character it does not itself reinsert removes every
occurrence (scan form). -/
theorem not_mem_replace_go_single (c : Char) (r : Str) (hr : c ∉ r) :
    ∀ (fuel : Nat) (s : Str), s.length ≤ fuel → c ∉ replace_go [c] r fuel s := by
  intro fuel
  induction fuel with
  | zero =>
    intro s hl
    have : s = [] := List.eq_nil_of_length_eq_zero (Nat.le_zero.mp hl)
    subst this
    intro hx
    simp [replace_go] at hx
  | succ f ih =>
    intro s hl
    cases s with
    | nil => intro hx; simp [replace_go] at hx
    | cons x cs =>
      intro hx
      rw [replace_go] at hx
      split at hx
      · rcases List.mem_append.mp hx with h' | h'
        · exact hr h'
        · have hlen : (cs.drop ([c].length - 1)).length ≤ f := by
            simp only [List.length_cons, Nat.add_le_add_iff_right] at hl
            calc (cs.drop ([c].length - 1)).length ≤ cs.length := by
                  simp
              _ ≤ f := hl
          exact ih _ hlen h'
      · rename_i hsw
        rcases List.mem_cons.mp hx with rfl | h'
        · rw [show starts_with (c :: cs) [c] = true by simp [starts_with]] at hsw
          exact absurd rfl hsw
        · have hlen : cs.length ≤ f := by
            simpa using Nat.le_of_succ_le_succ hl
          exact ih cs hlen h'

/-- Replacing a single character it does not itself reinsert removes every
occurrence. -/
theorem not_mem_replace_str_single (s : Str) (c : Char) (r : Str) (hr : c ∉ r) :
    c ∉ replace_str s [c] r := by
  unfold replace_str
  rw [show ([c] : Str).isEmpty = false from rfl, if_neg Bool.false_ne_true]
  exact not_mem_replace_go_single c r hr s.length s (Nat.le_refl _)

/-- Absent patterns leave the scan unchanged. -/
theorem replace_go_of_not_contains (p r : Str) :
    ∀ (fuel : Nat) (s : Str), contains_sub s p = false → replace_go p r fuel s = s := by
  intro fuel
  induction fuel with
  | zero => intro s _; cases s <;> rfl
  | succ f ih =>
    intro s hc
    cases s with
    | nil => rfl
    | cons c cs =>
      rw [contains_sub] at hc
      have h1 := Bool.or_eq_false_iff.mp hc
      rw [replace_go, h1.1, if_neg Bool.false_ne_true, ih cs h1.2]

/-- Every string contains the empty pattern. -/
theorem contains_sub_nil (s : Str) : contains_sub s [] = true := by
  cases s <;> rfl

/-- A contained nonempty pattern contributes its head character. -/
theorem contains_cons_head {s p : Str} {c : Char}
    (h : contains_sub s (c :: p) = true) : c ∈ s := by
  induction s with
  | nil => simp [contains_sub, starts_with] at h
  | cons x xs ih =>
    rw [contains_sub] at h
    rcases Bool.or_eq_true_iff.mp h with h' | h'
    · rw [starts_with] at h'
      have := (Bool.and_eq_true_iff.mp h').1
      have hx : x = c := by simpa using this
      exact hx ▸ List.mem_cons_self _ _
    · exact List.mem_cons_of_mem _ (ih h')

/-- A string missing the head character of a pattern does not contain the
pattern. -/
theorem not_contains_cons_head {s p : Str} {c : Char} (h : c ∉ s) :
    contains_sub s (c :: p) = false := by
  cases hc : contains_sub s (c :: p)
  · rfl
  · exact absurd (contains_cons_head hc) h

/-- Absent patterns leave replace unchanged. -/
theorem replace_str_of_not_contains (s p r : Str) (hc : contains_sub s p = false) :
    replace_str s p r = s := by
  have hp : p.isEmpty = false := by
    cases p
    · rw [contains_sub_nil] at hc; cases hc
    · rfl
  unfold replace_str
  rw [hp, if_neg Bool.false_ne_true]
  exact replace_go_of_not_contains p r s.length s hc

/-- The JSON stage preserves absence of characters other than newline. -/
theorem norm_json_stage_not_mem {c : Char} (json : Bool) (s : Str)
    (hs : c ∉ s) (hc : c ∉ (['\n'] : Str)) : c ∉ norm_json_stage json s := by
  unfold norm_json_stage
  cases json
  · exact hs
  · exact not_mem_replace_str ['\\', 'n'] hs hc

/-- The JSON stage is the identity on backslash-free strings. -/
theorem norm_json_stage_id (json : Bool) (s : Str) (hb : '\\' ∉ s) :
    norm_json_stage json s = s := by
  unfold norm_json_stage
  cases json
  · rfl
  · exact replace_str_of_not_contains s ['\\', 'n'] ['\n'] (not_contains_cons_head hb)

/-- The fixed substitution chain produces a string free of backslashes,
tabs and carriage returns whenever the input has no tabs or carriage
returns. -/
theorem norm_fixed_stages_no_specials (s : Str) (h1 : '\t' ∉ s) (h2 : '\r' ∉ s) :
    '\\' ∉ norm_fixed_stages s ∧ '\t' ∉ norm_fixed_stages s ∧ '\r' ∉ norm_fixed_stages s := by
  unfold norm_fixed_stages
  have ht2 : '\t' ∉ replace_str s ['\\', '\\'] ['\\'] :=
    not_mem_replace_str _ h1 (by decide)
  have hr2 : '\r' ∉ replace_str s ['\\', '\\'] ['\\'] :=
    not_mem_replace_str _ h2 (by decide)
  have hb3 : '\\' ∉ replace_str (replace_str s ['\\', '\\'] ['\\']) ['\\'] ['/'] :=
    not_mem_replace_str_single _ _ _ (by decide)
  have ht3 : '\t' ∉ replace_str (replace_str s ['\\', '\\'] ['\\']) ['\\'] ['/'] :=
    not_mem_replace_str _ ht2 (by decide)
  have hr3 : '\r' ∉ replace_str (replace_str s ['\\', '\\'] ['\\']) ['\\'] ['/'] :=
    not_mem_replace_str _ hr2 (by decide)
  have hb4 : '\\' ∉ replace_str (replace_str (replace_str s ['\\', '\\'] ['\\'])
      ['\\'] ['/']) ['\r', '\n'] ['\n'] :=
    not_mem_replace_str _ hb3 (by decide)
  have ht4 : '\t' ∉ replace_str (replace_str (replace_str s ['\\', '\\'] ['\\'])
      ['\\'] ['/']) ['\r', '\n'] ['\n'] :=
    not_mem_replace_str _ ht3 (by decide)
  have hr4 : '\r' ∉ replace_str (replace_str (replace_str s ['\\', '\\'] ['\\'])
      ['\\'] ['/']) ['\r', '\n'] ['\n'] :=
    not_mem_replace_str _ hr3 (by decide)
  rw [replace_str_of_not_contains _ _ _ (not_contains_cons_head ht4)]
  exact ⟨hb4, ht4, hr4⟩

/-- The fixed substitution chain is the identity on strings free of
backslashes, tabs and carriage returns. -/
theorem norm_fixed_stages_id (s : Str) (hb : '\\' ∉ s) (ht : '\t' ∉ s) (hr : '\r' ∉ s) :
    norm_fixed_stages s = s := by
  unfold norm_fixed_stages
  rw [replace_str_of_not_contains s _ _ (not_contains_cons_head hb),
      replace_str_of_not_contains s _ _ (not_contains_cons_head hb),
      replace_str_of_not_contains s _ _ (not_contains_cons_head hr),
      replace_str_of_not_contains s _ _ (not_contains_cons_head ht)]

/-- C2 counterexample: on the one-character output consisting of a tab, with
no user rules, one application yields backslash-t but a second application
turns that backslash into a slash, so normalization is not idempotent. -/
theorem c2_normalize_not_idempotent :
    normalize_output (("/a").toList) [] []
        (normalize_output (("/a").toList) [] [] ['\t']) ≠
      normalize_output (("/a").toList) [] [] ['\t'] := by
  decide

/-- C2 amended: with no user substitution rules, on outputs free of tabs
and carriage returns, and when the once-normalized output no longer
contains the parent-directory string, normalize_output is idempotent. -/
theorem c2_normalize_idempotent_amended (parent_dir : Str) (compile_flags : List Str)
    (output : Str) (h1 : '\t' ∉ output) (h2 : '\r' ∉ output)
    (h3 : contains_sub (normalize_output parent_dir compile_flags [] output)
        (parent_dir_str parent_dir compile_flags) = false) :
    normalize_output parent_dir compile_flags []
        (normalize_output parent_dir compile_flags [] output) =
      normalize_output parent_dir compile_flags [] output := by
  have hrw : ∀ out' : Str, normalize_output parent_dir compile_flags [] out' =
      norm_fixed_stages (norm_json_stage (is_json compile_flags)
        (replace_str out' (parent_dir_str parent_dir compile_flags) (("$DIR").toList))) :=
    fun _ => rfl
  have h0t : '\t' ∉ replace_str output (parent_dir_str parent_dir compile_flags)
      (("$DIR").toList) := not_mem_replace_str _ h1 (by decide)
  have h0r : '\r' ∉ replace_str output (parent_dir_str parent_dir compile_flags)
      (("$DIR").toList) := not_mem_replace_str _ h2 (by decide)
  have h1t : '\t' ∉ norm_json_stage (is_json compile_flags)
      (replace_str output (parent_dir_str parent_dir compile_flags) (("$DIR").toList)) :=
    norm_json_stage_not_mem _ _ h0t (by decide)
  have h1r : '\r' ∉ norm_json_stage (is_json compile_flags)
      (replace_str output (parent_dir_str parent_dir compile_flags) (("$DIR").toList)) :=
    norm_json_stage_not_mem _ _ h0r (by decide)
  have hN := norm_fixed_stages_no_specials _ h1t h1r
  rw [hrw output] at h3 ⊢
  rw [hrw (norm_fixed_stages (norm_json_stage (is_json compile_flags)
      (replace_str output (parent_dir_str parent_dir compile_flags) (("$DIR").toList))))]
  rw [replace_str_of_not_contains _ _ _ h3]
  rw [norm_json_stage_id _ _ hN.1]
  exact norm_fixed_stages_id _ hN.1 hN.2.1 hN.2.2

/-- C2 witness: a concrete clean output is a fixed point of normalization,
so a second application changes nothing. -/
theorem c2_witness :
    normalize_output (("/a").toList) [] []
        (normalize_output (("/a").toList) [] [] (("x").toList)) =
      normalize_output (("/a").toList) [] [] (("x").toList) :=
  c2_normalize_idempotent_amended (("/a").toList) [] (("x").toList)
    (by decide) (by decide) (by decide)

/-- Every string starts with the empty pattern. -/
@[simp] theorem starts_with_nil (s : Str) : starts_with s [] = true := by
  cases s <;> rfl

/-- Unfolding of starts_with on two cons cells. -/
theorem starts_with_cons (a b : Char) (s p : Str) :
    starts_with (a :: s) (b :: p) = ((a == b) && starts_with s p) := rfl

/-- Left trim keeps a string whose head is not whitespace. -/
theorem strTrimLeft_cons_not_ws (c : Char) (s : Str) (hc : isWs c = false) :
    strTrimLeft (c :: s) = c :: s := by
  simp [strTrimLeft, List.dropWhile_cons, hc]

/-- Right trim passes over a non-whitespace character: everything to its
left survives and only the part to its right is trimmed. -/
theorem strTrimRight_append_cons (l : Str) (c : Char) (s : Str) (hc : isWs c = false) :
    strTrimRight (l ++ c :: s) = l ++ c :: strTrimRight s := by
  unfold strTrimRight
  rw [List.reverse_append, List.reverse_cons, List.append_assoc, List.dropWhile_append]
  split
  next h =>
    have hnil : List.dropWhile isWs s.reverse = [] := by
      simpa using h
    simp [List.dropWhile_cons, hc, hnil]
  next h =>
    simp [List.reverse_append, List.append_assoc]

/-- Right trim of a cons is empty or keeps the head character. -/
theorem strTrimRight_cons_shape (c : Char) (s : Str) :
    strTrimRight (c :: s) = [] ∨ ∃ t, strTrimRight (c :: s) = c :: t := by
  unfold strTrimRight
  rw [List.reverse_cons, List.dropWhile_append]
  split
  next h =>
    cases hws : isWs c
    · right
      exact ⟨[], by simp [List.dropWhile_cons, hws]⟩
    · left
      simp [List.dropWhile_cons, hws]
  next h =>
    right
    exact ⟨(List.dropWhile isWs s.reverse).reverse, by simp⟩

/-- Finding a character not present in the prefix locates the explicit
occurrence. -/
theorem find_char_append (c : Char) (l s : Str) (hl : c ∉ l) :
    find_char c (l ++ c :: s) = some l.length := by
  induction l with
  | nil => simp [find_char]
  | cons x xs ih =>
    have hx : (x == c) = false := by
      simp only [beq_eq_false_iff_ne, ne_eq]
      intro h
      exact hl (h ▸ List.mem_cons_self _ _)
    rw [List.cons_append, find_char, hx, if_neg Bool.false_ne_true,
      ih (fun h => hl (List.mem_cons_of_mem _ h))]
    simp

/-- The header scan on a well-formed revision-tagged comment line: the body
is emitted, fully trimmed, exactly when the current revision equals the
tag. -/
theorem iter_header_line_tagged (cfg : Option Str) (tag body : Str) (htag : ']' ∉ tag) :
    iter_header_line cfg ('/' :: '/' :: '[' :: (tag ++ ']' :: body)) =
      if cfg == some tag then HeaderAction.emit (strTrim body) else HeaderAction.skip := by
  have hR : strTrimRight ('/' :: '/' :: '[' :: (tag ++ ']' :: body)) =
      '/' :: '/' :: '[' :: (tag ++ ']' :: strTrimRight body) := by
    have h := strTrimRight_append_cons ('/' :: '/' :: '[' :: tag) ']' body (by decide)
    simpa using h
  have hT : strTrim ('/' :: '/' :: '[' :: (tag ++ ']' :: body)) =
      '/' :: '/' :: '[' :: (tag ++ ']' :: strTrimRight body) := by
    unfold strTrim
    rw [hR]
    exact strTrimLeft_cons_not_ws _ _ (by decide)
  have hfn : starts_with ('/' :: '/' :: '[' :: (tag ++ ']' :: strTrimRight body))
      ['f', 'n'] = false := by
    rw [starts_with_cons, show ('/' == 'f') = false from by decide, Bool.false_and]
  have hmod : starts_with ('/' :: '/' :: '[' :: (tag ++ ']' :: strTrimRight body))
      ['m', 'o', 'd'] = false := by
    rw [starts_with_cons, show ('/' == 'm') = false from by decide, Bool.false_and]
  have hbr : starts_with ('/' :: '/' :: '[' :: (tag ++ ']' :: strTrimRight body))
      ['/', '/', '['] = true := by
    rw [starts_with_cons, starts_with_cons, starts_with_cons]
    simp
  have hfind : find_char ']' ('/' :: '/' :: '[' :: (tag ++ ']' :: strTrimRight body)) =
      some (tag.length + 3) := by
    rw [find_char, show ('/' == ']') = false from by decide, if_neg Bool.false_ne_true,
      find_char, show ('/' == ']') = false from by decide, if_neg Bool.false_ne_true,
      find_char, show ('[' == ']') = false from by decide, if_neg Bool.false_ne_true,
      find_char_append ']' tag _ htag]
    simp
  have htake : ((('/' :: '/' :: '[' :: (tag ++ ']' :: strTrimRight body)).take
      (tag.length + 3)).drop 3) = tag := by
    simp only [List.take_succ_cons, List.drop_succ_cons, List.drop_zero]
    rw [List.take_left' rfl]
  have hdrop : ('/' :: '/' :: '[' :: (tag ++ ']' :: strTrimRight body)).drop
      (tag.length + 3 + 1) = strTrimRight body := by
    simp only [List.drop_succ_cons]
    rw [show tag ++ ']' :: strTrimRight body = (tag ++ [']']) ++ strTrimRight body by simp]
    exact List.drop_left' (by simp)
  simp only [iter_header_line, hT, hfn, hmod, hbr, hfind, Bool.or_self, Bool.false_eq_true,
    if_false, htake, hdrop]
  cases cfg <;> rfl

/-- The header scan on an untagged comment line: the body is emitted,
trimmed, for every revision including the no-revision pass. -/
theorem iter_header_line_untagged (cfg : Option Str) (c : Char) (body : Str)
    (hc : (c == '[') = false) :
    iter_header_line cfg ('/' :: '/' :: c :: body) =
      HeaderAction.emit (strTrim (c :: body)) := by
  have hR : strTrimRight ('/' :: '/' :: c :: body) =
      '/' :: '/' :: strTrimRight (c :: body) := by
    have h := strTrimRight_append_cons ['/'] '/' (c :: body) (by decide)
    simpa using h
  rcases strTrimRight_cons_shape c body with h0 | ⟨t2, h0⟩
  · have hT : strTrim ('/' :: '/' :: c :: body) = ['/', '/'] := by
      unfold strTrim
      rw [hR, h0]
      exact strTrimLeft_cons_not_ws _ _ (by decide)
    have hgoal : strTrim (c :: body) = [] := by
      unfold strTrim
      rw [h0]
      rfl
    rw [hgoal]
    simp only [iter_header_line, hT]
    rfl
  · have hT : strTrim ('/' :: '/' :: c :: body) = '/' :: '/' :: c :: t2 := by
      unfold strTrim
      rw [hR, h0]
      exact strTrimLeft_cons_not_ws _ _ (by decide)
    have hgoal : strTrim (c :: body) = strTrimLeft (c :: t2) := by
      unfold strTrim
      rw [h0]
    have hfn : starts_with ('/' :: '/' :: c :: t2) ['f', 'n'] = false := by
      rw [starts_with_cons, show ('/' == 'f') = false from by decide, Bool.false_and]
    have hmod : starts_with ('/' :: '/' :: c :: t2) ['m', 'o', 'd'] = false := by
      rw [starts_with_cons, show ('/' == 'm') = false from by decide, Bool.false_and]
    have hbr : starts_with ('/' :: '/' :: c :: t2) ['/', '/', '['] = false := by
      rw [starts_with_cons, starts_with_cons, starts_with_cons, hc]
      simp
    have hsl : starts_with ('/' :: '/' :: c :: t2) ['/', '/'] = true := by
      rw [starts_with_cons, starts_with_cons]
      simp
    rw [hgoal]
    simp only [iter_header_line, hT, hfn, hmod, hbr, hsl, Bool.or_self, Bool.false_eq_true,
      if_false, if_true]
    rfl

/-- Scanning past a prefix of non-stopping, well-formed header lines
prepends their emitted directives. -/
theorem iter_header_append_ok (cfg : Option Str) (pre rest : List Str)
    (hpre : pre.all (header_line_ok cfg) = true) :
    iter_header cfg (pre ++ rest) =
      (iter_header cfg rest).map (emits_of cfg pre ++ ·) := by
  induction pre with
  | nil =>
    simp only [List.nil_append, emits_of, List.filterMap_nil]
    cases iter_header cfg rest <;> rfl
  | cons l pre ih =>
    rw [List.all_cons, Bool.and_eq_true] at hpre
    obtain ⟨h1, h2⟩ := hpre
    rw [List.cons_append]
    unfold header_line_ok at h1
    cases ha : iter_header_line cfg l
    case stop => rw [ha] at h1; cases h1
    case malformed => rw [ha] at h1; cases h1
    case skip =>
      show (match iter_header_line cfg l with
        | HeaderAction.stop => some []
        | HeaderAction.emit s => (iter_header cfg (pre ++ rest)).map (s :: ·)
        | HeaderAction.skip => iter_header cfg (pre ++ rest)
        | HeaderAction.malformed => none) = _
      rw [ha, ih h2]
      have he : emits_of cfg (l :: pre) = emits_of cfg pre := by
        simp [emits_of, List.filterMap_cons, ha]
      rw [he]
    case emit s =>
      show (match iter_header_line cfg l with
        | HeaderAction.stop => some []
        | HeaderAction.emit s => (iter_header cfg (pre ++ rest)).map (s :: ·)
        | HeaderAction.skip => iter_header cfg (pre ++ rest)
        | HeaderAction.malformed => none) = _
      rw [ha, ih h2]
      have he : emits_of cfg (l :: pre) = s :: emits_of cfg pre := by
        simp [emits_of, List.filterMap_cons, ha]
      rw [he]
      cases iter_header cfg rest <;> simp

/-- C4: for header lines before the first declaration, a tagged line
emits its trimmed body to the callback exactly when the current revision
equals the tag, and an untagged comment line emits its trimmed body on
every pass, including the no-revision one. -/
theorem c4_iter_header_revision_filter (cfg : Option Str) (pre : List Str)
    (tag body : Str) (c : Char) (body2 : Str)
    (hpre : pre.all (header_line_ok cfg) = true) (htag : ']' ∉ tag)
    (hc : (c == '[') = false) :
    iter_header cfg (pre ++ ['/' :: '/' :: '[' :: (tag ++ ']' :: body)]) =
      some (emits_of cfg pre ++ (if cfg == some tag then [strTrim body] else [])) ∧
    iter_header cfg (pre ++ ['/' :: '/' :: c :: body2]) =
      some (emits_of cfg pre ++ [strTrim (c :: body2)]) := by
  constructor
  · rw [iter_header_append_ok cfg pre _ hpre]
    cases hcf : (cfg == some tag)
    · rw [show iter_header cfg ['/' :: '/' :: '[' :: (tag ++ ']' :: body)] = some [] from by
        simp [iter_header, iter_header_line_tagged cfg tag body htag, hcf]]
      simp
    · rw [show iter_header cfg ['/' :: '/' :: '[' :: (tag ++ ']' :: body)] =
          some [strTrim body] from by
        simp [iter_header, iter_header_line_tagged cfg tag body htag, hcf]]
      simp
  · rw [iter_header_append_ok cfg pre _ hpre]
    rw [show iter_header cfg ['/' :: '/' :: c :: body2] = some [strTrim (c :: body2)] from by
      simp [iter_header, iter_header_line_untagged cfg c body2 hc]]
    simp

/-- C4 witness: a concrete two-line header with revision a: the tagged line
emits its body for revision a, and the untagged line emits its body. -/
theorem c4_witness :
    iter_header (some (("a").toList))
        [("// x").toList, '/' :: '/' :: '[' :: ((("a").toList) ++ ']' :: ((" f").toList))] =
      some (emits_of (some (("a").toList)) [("// x").toList] ++
        (if (some (("a").toList) : Option Str) == some (("a").toList)
         then [strTrim ((" f").toList)] else [])) ∧
    iter_header (some (("a").toList)) [("// x").toList, '/' :: '/' :: ' ' :: (("z").toList)] =
      some (emits_of (some (("a").toList)) [("// x").toList] ++ [strTrim (' ' :: ("z").toList)]) :=
  c4_iter_header_revision_filter (some (("a").toList)) [("// x").toList]
    (("a").toList) ((" f").toList) ' ' (("z").toList)
    (by decide) (by decide) (by decide)

/-- Guarded boolean update of the parser step: build_aux_docs. -/
theorem step_build_aux_docs (config : Config) (p : TestProps) (ln : Str) :
    (load_from_step config p ln).build_aux_docs =
      (p.build_aux_docs || parse_build_aux_docs ln) := by
  cases h : p.build_aux_docs <;> simp [load_from_step, h]

/-- Guarded boolean update of the parser step: force_host. -/
theorem step_force_host (config : Config) (p : TestProps) (ln : Str) :
    (load_from_step config p ln).force_host = (p.force_host || parse_force_host ln) := by
  cases h : p.force_host <;> simp [load_from_step, h]

/-- Guarded boolean update of the parser step: check_stdout. -/
theorem step_check_stdout (config : Config) (p : TestProps) (ln : Str) :
    (load_from_step config p ln).check_stdout = (p.check_stdout || parse_check_stdout ln) := by
  cases h : p.check_stdout <;> simp [load_from_step, h]

/-- Guarded boolean update of the parser step: no_prefer_dynamic. -/
theorem step_no_prefer_dynamic (config : Config) (p : TestProps) (ln : Str) :
    (load_from_step config p ln).no_prefer_dynamic =
      (p.no_prefer_dynamic || parse_no_prefer_dynamic ln) := by
  cases h : p.no_prefer_dynamic <;> simp [load_from_step, h]

/-- Guarded boolean update of the parser step: pretty_expanded. -/
theorem step_pretty_expanded (config : Config) (p : TestProps) (ln : Str) :
    (load_from_step config p ln).pretty_expanded =
      (p.pretty_expanded || parse_pretty_expanded ln) := by
  cases h : p.pretty_expanded <;> simp [load_from_step, h]

/-- Guarded boolean update of the parser step: pretty_compare_only. -/
theorem step_pretty_compare_only (config : Config) (p : TestProps) (ln : Str) :
    (load_from_step config p ln).pretty_compare_only =
      (p.pretty_compare_only || parse_pretty_compare_only ln) := by
  cases h : p.pretty_compare_only <;> simp [load_from_step, h]

/-- Guarded boolean update of the parser step: must_compile_successfully. -/
theorem step_must_compile_successfully (config : Config) (p : TestProps) (ln : Str) :
    (load_from_step config p ln).must_compile_successfully =
      (p.must_compile_successfully || parse_must_compile_successfully ln) := by
  cases h : p.must_compile_successfully <;> simp [load_from_step, h]

/-- Guarded boolean update of the parser step: check_test_line_numbers_match. -/
theorem step_check_test_line_numbers_match (config : Config) (p : TestProps) (ln : Str) :
    (load_from_step config p ln).check_test_line_numbers_match =
      (p.check_test_line_numbers_match || parse_check_test_line_numbers_match ln) := by
  cases h : p.check_test_line_numbers_match <;> simp [load_from_step, h]

/-- A guarded boolean accumulates as a disjunction over the directive
lines. -/
theorem foldl_bool_of_step {f : TestProps → Bool} {g : Str → Bool} (config : Config)
    (hstep : ∀ (p : TestProps) (ln : Str), f (load_from_step config p ln) = (f p || g ln)) :
    ∀ (es : List Str) (p : TestProps),
      f (es.foldl (load_from_step config) p) = (f p || es.any g) := by
  intro es
  induction es with
  | nil => intro p; simp
  | cons e es ih =>
    intro p
    rw [List.foldl_cons, ih, hstep]
    simp [Bool.or_assoc]

/-- Fold characterization: build_aux_docs. -/
theorem foldl_build_aux_docs (config : Config) (es : List Str) (p : TestProps) :
    (es.foldl (load_from_step config) p).build_aux_docs =
      (p.build_aux_docs || es.any parse_build_aux_docs) :=
  foldl_bool_of_step config (step_build_aux_docs config) es p

/-- Fold characterization: force_host. -/
theorem foldl_force_host (config : Config) (es : List Str) (p : TestProps) :
    (es.foldl (load_from_step config) p).force_host =
      (p.force_host || es.any parse_force_host) :=
  foldl_bool_of_step config (step_force_host config) es p

/-- Fold characterization: check_stdout. -/
theorem foldl_check_stdout (config : Config) (es : List Str) (p : TestProps) :
    (es.foldl (load_from_step config) p).check_stdout =
      (p.check_stdout || es.any parse_check_stdout) :=
  foldl_bool_of_step config (step_check_stdout config) es p

/-- Fold characterization: no_prefer_dynamic. -/
theorem foldl_no_prefer_dynamic (config : Config) (es : List Str) (p : TestProps) :
    (es.foldl (load_from_step config) p).no_prefer_dynamic =
      (p.no_prefer_dynamic || es.any parse_no_prefer_dynamic) :=
  foldl_bool_of_step config (step_no_prefer_dynamic config) es p

/-- Fold characterization: pretty_expanded. -/
theorem foldl_pretty_expanded (config : Config) (es : List Str) (p : TestProps) :
    (es.foldl (load_from_step config) p).pretty_expanded =
      (p.pretty_expanded || es.any parse_pretty_expanded) :=
  foldl_bool_of_step config (step_pretty_expanded config) es p

/-- Fold characterization: pretty_compare_only. -/
theorem foldl_pretty_compare_only (config : Config) (es : List Str) (p : TestProps) :
    (es.foldl (load_from_step config) p).pretty_compare_only =
      (p.pretty_compare_only || es.any parse_pretty_compare_only) :=
  foldl_bool_of_step config (step_pretty_compare_only config) es p

/-- Fold characterization: must_compile_successfully. -/
theorem foldl_must_compile_successfully (config : Config) (es : List Str) (p : TestProps) :
    (es.foldl (load_from_step config) p).must_compile_successfully =
      (p.must_compile_successfully || es.any parse_must_compile_successfully) :=
  foldl_bool_of_step config (step_must_compile_successfully config) es p

/-- Fold characterization: check_test_line_numbers_match. -/
theorem foldl_check_test_line_numbers_match (config : Config) (es : List Str) (p : TestProps) :
    (es.foldl (load_from_step config) p).check_test_line_numbers_match =
      (p.check_test_line_numbers_match || es.any parse_check_test_line_numbers_match) :=
  foldl_bool_of_step config (step_check_test_line_numbers_match config) es p

/-- The ambient-environment pass only appends to exec_env and leaves every
boolean property unchanged. -/
theorem bools_of_apply_ambient_env (config : Config) (p : TestProps) :
    bools_of (apply_ambient_env config p) = bools_of p := by
  have hstep : ∀ (q : TestProps) (key : Str),
      bools_of (match config.env_var key with
        | some val =>
          if (q.exec_env.find? (fun kv => kv.1 == key)).isNone then
            { q with exec_env := q.exec_env ++ [(key, val)] }
          else q
        | none => q) = bools_of q := by
    intro q key
    cases config.env_var key with
    | none => rfl
    | some val =>
      show bools_of (if (q.exec_env.find? (fun kv => kv.1 == key)).isNone then
          { q with exec_env := q.exec_env ++ [(key, val)] } else q) = bools_of q
      split <;> rfl
  unfold apply_ambient_env
  rw [List.foldl_cons, List.foldl_cons, List.foldl_nil]
  rw [hstep, hstep]

/-- A line whose scan action is stop begins a declaration. -/
theorem line_stops_of_action_stop {cfg : Option Str} {l : Str}
    (h : iter_header_line cfg l = HeaderAction.stop) : line_stops l = true := by
  unfold line_stops
  by_cases hb : (starts_with (strTrim l) ['f', 'n'] ||
      starts_with (strTrim l) ['m', 'o', 'd']) = true
  · exact hb
  · exfalso
    rw [Bool.not_eq_true] at hb
    simp only [iter_header_line, hb, Bool.false_eq_true, if_false] at h
    split at h
    · split at h
      · split at h <;> cases h
      · cases h
    · split at h <;> cases h

/-- With no stopping and no malformed line, the scan succeeds and emits
exactly the filtered directive bodies. -/
theorem iter_header_some_of_ok (cfg : Option Str) : ∀ (ls : List Str),
    (∀ l ∈ ls, iter_header_line cfg l ≠ HeaderAction.stop) →
    (∀ l ∈ ls, iter_header_line cfg l ≠ HeaderAction.malformed) →
    iter_header cfg ls = some (emits_of cfg ls) := by
  intro ls
  induction ls with
  | nil => intro _ _; rfl
  | cons l ls ih =>
    intro hstop hmal
    have ihl := ih (fun x hx => hstop x (List.mem_cons_of_mem _ hx))
      (fun x hx => hmal x (List.mem_cons_of_mem _ hx))
    show (match iter_header_line cfg l with
      | HeaderAction.stop => some []
      | HeaderAction.emit s => (iter_header cfg ls).map (s :: ·)
      | HeaderAction.skip => iter_header cfg ls
      | HeaderAction.malformed => none) = _
    cases ha : iter_header_line cfg l
    case stop => exact absurd ha (hstop l (List.mem_cons_self _ _))
    case malformed => exact absurd ha (hmal l (List.mem_cons_self _ _))
    case skip =>
      rw [ihl]
      simp [emits_of, List.filterMap_cons, ha]
    case emit s =>
      rw [ihl]
      simp [emits_of, List.filterMap_cons, ha]

/-- A malformed line that is reached makes the scan panic. -/
theorem iter_header_none_of_malformed (cfg : Option Str) : ∀ (ls : List Str),
    (∀ l ∈ ls, iter_header_line cfg l ≠ HeaderAction.stop) →
    (∃ l ∈ ls, iter_header_line cfg l = HeaderAction.malformed) →
    iter_header cfg ls = none := by
  intro ls
  induction ls with
  | nil => intro _ hex; rcases hex with ⟨l, hl, _⟩; cases hl
  | cons l ls ih =>
    intro hstop hex
    show (match iter_header_line cfg l with
      | HeaderAction.stop => some []
      | HeaderAction.emit s => (iter_header cfg ls).map (s :: ·)
      | HeaderAction.skip => iter_header cfg ls
      | HeaderAction.malformed => none) = _
    cases ha : iter_header_line cfg l
    case malformed => rfl
    case stop => exact absurd ha (hstop l (List.mem_cons_self _ _))
    case skip =>
      rcases hex with ⟨x, hx, hmx⟩
      rcases List.mem_cons.mp hx with rfl | hx2
      · rw [ha] at hmx; cases hmx
      · exact ih (fun y hy => hstop y (List.mem_cons_of_mem _ hy)) ⟨x, hx2, hmx⟩
    case emit s =>
      rcases hex with ⟨x, hx, hmx⟩
      rcases List.mem_cons.mp hx with rfl | hx2
      · rw [ha] at hmx; cases hmx
      · rw [ih (fun y hy => hstop y (List.mem_cons_of_mem _ hy)) ⟨x, hx2, hmx⟩]
        rfl

/-- Any over a list is invariant under permutation. -/
theorem any_perm {α : Type} {l₁ l₂ : List α} (h : l₁.Perm l₂) (f : α → Bool) :
    l₁.any f = l₂.any f := by
  cases hb : l₂.any f
  · cases hb1 : l₁.any f
    · rfl
    · rcases List.any_eq_true.mp hb1 with ⟨x, hx, hfx⟩
      have h2 : l₂.any f = true := List.any_eq_true.mpr ⟨x, h.subset hx, hfx⟩
      rw [h2] at hb; cases hb
  · rcases List.any_eq_true.mp hb with ⟨x, hx, hfx⟩
    exact List.any_eq_true.mpr ⟨x, h.symm.subset hx, hfx⟩

/-- C3 counterexample: two run-flags directives; swapping the lines changes
the run_flags property, which is neither a boolean nor an order-sensitive
list field, so a permutation does not preserve the property set as the
claim states. -/
theorem c3_run_flags_order_counterexample :
    (TestProps.from_file [("// run-flags: a").toList, ("// run-flags: b").toList] none
        (llvm_config (("7.0").toList))).map (fun p => p.run_flags) ≠
      (TestProps.from_file [("// run-flags: b").toList, ("// run-flags: a").toList] none
        (llvm_config (("7.0").toList))).map (fun p => p.run_flags) := by
  decide

/-- C3 amended: the boolean properties are monotone during a parse (once
true they stay true for the remainder), and for header lines none of which
begins a declaration, re-running the parser on any permutation of the
lines yields the same boolean properties; the list fields and the
first-wins run_flags option are order sensitive. -/
theorem c3_booleans_monotone_and_permutation :
    (∀ (config : Config) (p : TestProps) (es : List Str),
      (p.build_aux_docs = true →
        (es.foldl (load_from_step config) p).build_aux_docs = true) ∧
      (p.force_host = true → (es.foldl (load_from_step config) p).force_host = true) ∧
      (p.check_stdout = true → (es.foldl (load_from_step config) p).check_stdout = true) ∧
      (p.no_prefer_dynamic = true →
        (es.foldl (load_from_step config) p).no_prefer_dynamic = true) ∧
      (p.pretty_expanded = true →
        (es.foldl (load_from_step config) p).pretty_expanded = true) ∧
      (p.pretty_compare_only = true →
        (es.foldl (load_from_step config) p).pretty_compare_only = true) ∧
      (p.must_compile_successfully = true →
        (es.foldl (load_from_step config) p).must_compile_successfully = true) ∧
      (p.check_test_line_numbers_match = true →
        (es.foldl (load_from_step config) p).check_test_line_numbers_match = true)) ∧
    (∀ (config : Config) (rev : Option Str) (ls ls2 : List Str),
      ls.Perm ls2 → (∀ l ∈ ls, line_stops l = false) →
      (TestProps.from_file ls rev config).map bools_of =
        (TestProps.from_file ls2 rev config).map bools_of) := by
  constructor
  · intro config p es
    refine ⟨?_, ?_, ?_, ?_, ?_, ?_, ?_, ?_⟩ <;> intro hp
    · rw [foldl_build_aux_docs, hp, Bool.true_or]
    · rw [foldl_force_host, hp, Bool.true_or]
    · rw [foldl_check_stdout, hp, Bool.true_or]
    · rw [foldl_no_prefer_dynamic, hp, Bool.true_or]
    · rw [foldl_pretty_expanded, hp, Bool.true_or]
    · rw [foldl_pretty_compare_only, hp, Bool.true_or]
    · rw [foldl_must_compile_successfully, hp, Bool.true_or]
    · rw [foldl_check_test_line_numbers_match, hp, Bool.true_or]
  · intro config rev ls ls2 hperm hstop
    have hstop1 : ∀ l ∈ ls, iter_header_line rev l ≠ HeaderAction.stop := by
      intro l hl h
      have h1 := hstop l hl
      rw [line_stops_of_action_stop h] at h1
      cases h1
    have hstop2 : ∀ l ∈ ls2, iter_header_line rev l ≠ HeaderAction.stop := by
      intro l hl h
      have h1 := hstop l (hperm.symm.subset hl)
      rw [line_stops_of_action_stop h] at h1
      cases h1
    by_cases hm : ∃ l ∈ ls, iter_header_line rev l = HeaderAction.malformed
    · have hm2 : ∃ l ∈ ls2, iter_header_line rev l = HeaderAction.malformed := by
        rcases hm with ⟨x, hx, hmx⟩
        exact ⟨x, hperm.subset hx, hmx⟩
      unfold TestProps.from_file
      rw [iter_header_none_of_malformed rev ls hstop1 hm,
        iter_header_none_of_malformed rev ls2 hstop2 hm2]
    · have hm1 : ∀ l ∈ ls, iter_header_line rev l ≠ HeaderAction.malformed := by
        intro l hl h
        exact hm ⟨l, hl, h⟩
      have hm2 : ∀ l ∈ ls2, iter_header_line rev l ≠ HeaderAction.malformed := by
        intro l hl h
        exact hm ⟨l, hperm.symm.subset hl, h⟩
      unfold TestProps.from_file
      rw [iter_header_some_of_ok rev ls hstop1 hm1,
        iter_header_some_of_ok rev ls2 hstop2 hm2]
      simp only [Option.map_some']
      rw [bools_of_apply_ambient_env, bools_of_apply_ambient_env]
      have hp : (emits_of rev ls).Perm (emits_of rev ls2) := hperm.filterMap _
      congr 1
      unfold bools_of
      rw [foldl_build_aux_docs, foldl_build_aux_docs, foldl_force_host, foldl_force_host,
        foldl_check_stdout, foldl_check_stdout, foldl_no_prefer_dynamic,
        foldl_no_prefer_dynamic, foldl_pretty_expanded, foldl_pretty_expanded,
        foldl_pretty_compare_only, foldl_pretty_compare_only,
        foldl_must_compile_successfully, foldl_must_compile_successfully,
        foldl_check_test_line_numbers_match, foldl_check_test_line_numbers_match]
      rw [any_perm hp parse_build_aux_docs, any_perm hp parse_force_host,
        any_perm hp parse_check_stdout, any_perm hp parse_no_prefer_dynamic,
        any_perm hp parse_pretty_expanded, any_perm hp parse_pretty_compare_only,
        any_perm hp parse_must_compile_successfully,
        any_perm hp parse_check_test_line_numbers_match]

/-- C3 witness: two boolean directives parsed in either order give the
same boolean properties. -/
theorem c3_witness :
    (TestProps.from_file [("// force-host").toList, ("// check-stdout").toList] none
        (llvm_config (("7.0").toList))).map bools_of =
      (TestProps.from_file [("// check-stdout").toList, ("// force-host").toList] none
        (llvm_config (("7.0").toList))).map bools_of :=
  c3_booleans_monotone_and_permutation.2 (llvm_config (("7.0").toList)) none
    [("// force-host").toList, ("// check-stdout").toList]
    [("// check-stdout").toList, ("// force-host").toList]
    (by decide) (by decide)

/-- An index with a value is in range. -/
theorem getq_lt {α : Type} {l : List α} {i : Nat} {x : α} (h : l[i]? = some x) :
    i < l.length := by
  by_contra hc
  rw [List.getElem?_eq_none (Nat.le_of_not_lt hc)] at h
  cases h

/-- A successful position scan hits a satisfying element and nothing
earlier satisfies the predicate. -/
theorem position_eq_some {α : Type} (p : α → Bool) :
    ∀ (l : List α) (i : Nat), position p l = some i →
      (∃ x, l[i]? = some x ∧ p x = true) ∧
      ∀ j, j < i → ∀ y, l[j]? = some y → p y = false := by
  intro l
  induction l with
  | nil => intro i h; cases h
  | cons a l ih =>
    intro i h
    rw [position] at h
    split at h
    · rename_i hpa
      cases h
      refine ⟨⟨a, by simp, hpa⟩, ?_⟩
      intro j hj y _
      exact absurd hj (Nat.not_lt_zero j)
    · rename_i hpa
      cases hp : position p l with
      | none => rw [hp] at h; cases h
      | some k =>
        rw [hp] at h
        simp only [Option.map_some'] at h
        cases h
        obtain ⟨⟨x, hx, hpx⟩, hmin⟩ := ih k hp
        refine ⟨⟨x, by simpa using hx, hpx⟩, ?_⟩
        intro j hj y hy
        cases j with
        | zero =>
          simp only [List.getElem?_cons_zero, Option.some_inj] at hy
          subst hy
          exact Bool.eq_false_iff.mpr hpa
        | succ j2 =>
          exact hmin j2 (by omega) y (by simpa using hy)

/-- A failed position scan means no element satisfies the predicate. -/
theorem position_eq_none {α : Type} (p : α → Bool) :
    ∀ (l : List α), position p l = none → ∀ (j : Nat) (y : α), l[j]? = some y → p y = false := by
  intro l
  induction l with
  | nil => intro _ j y hy; simp at hy
  | cons a l ih =>
    intro h j y hy
    rw [position] at h
    split at h
    · cases h
    · rename_i hpa
      cases j with
      | zero =>
        simp only [List.getElem?_cons_zero, Option.some_inj] at hy
        subst hy
        exact Bool.eq_false_iff.mpr hpa
      | succ j2 =>
        have hp : position p l = none := by
          cases hp : position p l
          · rfl
          · rw [hp] at h; simp at h
        exact ih hp j2 y (by simpa using hy)

/-- Success of the match scan: the found entry is available and matches,
and no earlier available entry matches. -/
theorem find_match_idx_some {expected : List Error} {found : List Bool} {actual : Error}
    {i : Nat} (h : find_match_idx expected found actual = some i) :
    (∃ e, expected[i]? = some e ∧ found[i]? = some false ∧ error_match e actual = true) ∧
    (∀ j, j < i → ∀ e f, expected[j]? = some e → found[j]? = some f →
      f = true ∨ error_match e actual = false) := by
  obtain ⟨⟨⟨e, f⟩, hx, hpx⟩, hmin⟩ := position_eq_some _ _ _ h
  obtain ⟨he, hf⟩ := List.getElem?_zip_eq_some.mp hx
  rw [Bool.and_eq_true] at hpx
  have hf0 : f = false := by
    cases f
    · rfl
    · cases hpx.1
  constructor
  · exact ⟨e, he, hf0 ▸ hf, hpx.2⟩
  · intro j hj e2 f2 he2 hf2
    have hz : (expected.zip found)[j]? = some (e2, f2) :=
      List.getElem?_zip_eq_some.mpr ⟨he2, hf2⟩
    have hm := hmin j hj (e2, f2) hz
    rcases Bool.and_eq_false_iff.mp hm with h1 | h2
    · left
      cases f2
      · cases h1
      · rfl
    · right
      exact h2

/-- Failure of the match scan: every available entry fails to match. -/
theorem find_match_idx_none {expected : List Error} {found : List Bool} {actual : Error}
    (h : find_match_idx expected found actual = none) :
    ∀ (i : Nat) (e : Error) (f : Bool), expected[i]? = some e → found[i]? = some f →
      f = true ∨ error_match e actual = false := by
  intro i e f he hf
  have hz : (expected.zip found)[i]? = some (e, f) :=
    List.getElem?_zip_eq_some.mpr ⟨he, hf⟩
  have hm := position_eq_none _ _ h i (e, f) hz
  rcases Bool.and_eq_false_iff.mp hm with h1 | h2
  · left
    cases f
    · cases h1
    · rfl
  · right
    exact h2

/-- Invariant of the matching loop, relative to the starting found state:
every assigned index was available, matches, is assigned only once, and is
the first available matching index; an unassigned actual has every
matching index either initially unavailable or taken by an earlier
actual. -/
theorem check_loop_spec (E : List Error) (eh en : Bool) :
    ∀ (A : List Error) (F : List Bool), F.length = E.length →
      (∀ (k i : Nat), (check_loop E eh en A F).assign[k]? = some (some i) →
        ((∃ e a, E[i]? = some e ∧ A[k]? = some a ∧ error_match e a = true) ∧
         F[i]? = some false ∧
         (∀ k2, k2 < k → (check_loop E eh en A F).assign[k2]? ≠ some (some i)) ∧
         (∀ j, j < i → ∀ e a, E[j]? = some e → A[k]? = some a → error_match e a = true →
           F[j]? = some true ∨
             ∃ k2, k2 < k ∧ (check_loop E eh en A F).assign[k2]? = some (some j)))) ∧
      (∀ (k : Nat) (a : Error), (check_loop E eh en A F).assign[k]? = some none →
        A[k]? = some a →
        ∀ (i : Nat) (e : Error), E[i]? = some e → error_match e a = true →
          F[i]? = some true ∨
            ∃ k2, k2 < k ∧ (check_loop E eh en A F).assign[k2]? = some (some i)) := by
  intro A
  induction A with
  | nil =>
    intro F _
    constructor
    · intro k i h
      simp [check_loop] at h
    · intro k a h
      simp [check_loop] at h
  | cons a A ih =>
    intro F hF
    cases hfind : find_match_idx E F a with
    | some idx =>
      have hCa : (check_loop E eh en (a :: A) F).assign =
          some idx :: (check_loop E eh en A (F.set idx true)).assign := by
        simp only [check_loop, hfind]
      obtain ⟨⟨e0, he0, hf0, hm0⟩, hmin0⟩ := find_match_idx_some hfind
      have hidxF : idx < F.length := getq_lt hf0
      have hF2 : (F.set idx true).length = E.length := by
        rw [List.length_set]; exact hF
      obtain ⟨IH1, IH2⟩ := ih (F.set idx true) hF2
      have hFidx : (F.set idx true)[idx]? = some true := List.getElem?_set_self hidxF
      have hFne : ∀ j, j ≠ idx → (F.set idx true)[j]? = F[j]? := by
        intro j hj
        exact List.getElem?_set_ne (fun h => hj h.symm)
      constructor
      · intro k i h
        rw [hCa] at h
        cases k with
        | zero =>
          simp only [List.getElem?_cons_zero, Option.some_inj] at h
          subst h
          refine ⟨⟨e0, a, he0, by simp, hm0⟩, hf0, ?_, ?_⟩
          · intro k2 hk2
            exact absurd hk2 (Nat.not_lt_zero k2)
          · intro j hj e2 a2 he2 ha2 hm2
            simp only [List.getElem?_cons_zero, Option.some_inj] at ha2
            subst ha2
            left
            have hiE : idx < E.length := getq_lt he0
            have hjF : j < F.length := by omega
            have hfj : F[j]? = some (F[j]) := List.getElem?_eq_getElem hjF
            rcases hmin0 j hj e2 (F[j]) he2 hfj with h1 | h2
            · rw [hfj, h1]
            · rw [hm2] at h2
              cases h2
        | succ k2 =>
          simp only [List.getElem?_cons_succ] at h
          obtain ⟨⟨e2, a2, he2, ha2, hm2⟩, hf2, honce, hfirst⟩ := IH1 k2 i h
          have hine : i ≠ idx := by
            intro hcontra
            rw [hcontra, hFidx] at hf2
            cases hf2
          refine ⟨⟨e2, a2, he2, by simpa using ha2, hm2⟩, ?_, ?_, ?_⟩
          · rw [← hFne i hine]
            exact hf2
          · intro k3 hk3
            rw [hCa]
            cases k3 with
            | zero =>
              simp only [List.getElem?_cons_zero]
              intro hcontra
              simp only [Option.some_inj] at hcontra
              exact hine hcontra.symm
            | succ k4 =>
              simp only [List.getElem?_cons_succ]
              exact honce k4 (by omega)
          · intro j hj e3 a3 he3 ha3 hm3
            simp only [List.getElem?_cons_succ] at ha3
            rcases hfirst j hj e3 a3 he3 ha3 hm3 with hleft | ⟨k4, hk4, hk4a⟩
            · by_cases hjidx : j = idx
              · right
                refine ⟨0, by omega, ?_⟩
                rw [hCa, hjidx]
                simp
              · left
                rw [← hFne j hjidx]
                exact hleft
            · right
              refine ⟨k4 + 1, by omega, ?_⟩
              rw [hCa]
              simpa using hk4a
      · intro k a2 h ha2
        rw [hCa] at h
        cases k with
        | zero =>
          simp at h
        | succ k2 =>
          simp only [List.getElem?_cons_succ] at h ha2
          intro i e he hm
          rcases IH2 k2 a2 h ha2 i e he hm with hleft | ⟨k4, hk4, hk4a⟩
          · by_cases hiidx : i = idx
            · right
              refine ⟨0, by omega, ?_⟩
              rw [hCa, hiidx]
              simp
            · left
              rw [← hFne i hiidx]
              exact hleft
          · right
            refine ⟨k4 + 1, by omega, ?_⟩
            rw [hCa]
            simpa using hk4a
    | none =>
      have hCa : (check_loop E eh en (a :: A) F).assign =
          none :: (check_loop E eh en A F).assign := by
        simp only [check_loop, hfind]
      have hN := find_match_idx_none hfind
      obtain ⟨IH1, IH2⟩ := ih F hF
      constructor
      · intro k i h
        rw [hCa] at h
        cases k with
        | zero =>
          simp at h
        | succ k2 =>
          simp only [List.getElem?_cons_succ] at h
          obtain ⟨⟨e2, a2, he2, ha2, hm2⟩, hf2, honce, hfirst⟩ := IH1 k2 i h
          refine ⟨⟨e2, a2, he2, by simpa using ha2, hm2⟩, hf2, ?_, ?_⟩
          · intro k3 hk3
            rw [hCa]
            cases k3 with
            | zero => simp
            | succ k4 =>
              simp only [List.getElem?_cons_succ]
              exact honce k4 (by omega)
          · intro j hj e3 a3 he3 ha3 hm3
            simp only [List.getElem?_cons_succ] at ha3
            rcases hfirst j hj e3 a3 he3 ha3 hm3 with hleft | ⟨k4, hk4, hk4a⟩
            · exact Or.inl hleft
            · right
              refine ⟨k4 + 1, by omega, ?_⟩
              rw [hCa]
              simpa using hk4a
      · intro k a2 h ha2
        rw [hCa] at h
        cases k with
        | zero =>
          simp only [List.getElem?_cons_zero, Option.some_inj] at ha2
          subst ha2
          intro i e he hm
          have hiE : i < E.length := getq_lt he
          have hiF : i < F.length := by omega
          have hfi : F[i]? = some (F[i]) := List.getElem?_eq_getElem hiF
          rcases hN i e (F[i]) he hfi with h1 | h2
          · left
            rw [hfi, h1]
          · rw [hm] at h2
            cases h2
        | succ k2 =>
          simp only [List.getElem?_cons_succ] at h ha2
          intro i e he hm
          rcases IH2 k2 a2 h ha2 i e he hm with hleft | ⟨k4, hk4, hk4a⟩
          · exact Or.inl hleft
          · right
            refine ⟨k4 + 1, by omega, ?_⟩
            rw [hCa]
            simpa using hk4a

/-- The initial all-false found vector never reads true. -/
theorem replicate_false_ne_some_true (n j : Nat) :
    (List.replicate n false)[j]? ≠ some true := by
  rw [List.getElem?_replicate]
  split <;> simp

/-- C5: the matcher pairs each actual diagnostic with the first
not-yet-matched expected entry in source order with equal line, compatible
kind and message-substring match; no expected entry is matched by two
actuals, and an unmatched actual has all its compatible entries already
taken by earlier actuals. -/
theorem c5_matcher_greedy_first_fit (expected actuals : List Error) :
    (∀ (k i : Nat), (check_expected_errors expected actuals).assign[k]? = some (some i) →
      ∃ e a, expected[i]? = some e ∧ actuals[k]? = some a ∧ error_match e a = true) ∧
    (∀ (k i : Nat), (check_expected_errors expected actuals).assign[k]? = some (some i) →
      ∀ j, j < i → ∀ e a, expected[j]? = some e → actuals[k]? = some a →
        error_match e a = true →
        ∃ k2, k2 < k ∧ (check_expected_errors expected actuals).assign[k2]? = some (some j)) ∧
    (∀ (k1 k2 i : Nat), (check_expected_errors expected actuals).assign[k1]? = some (some i) →
      (check_expected_errors expected actuals).assign[k2]? = some (some i) → k1 = k2) ∧
    (∀ (k : Nat) (a : Error), (check_expected_errors expected actuals).assign[k]? = some none →
      actuals[k]? = some a →
      ∀ (i : Nat) (e : Error), expected[i]? = some e → error_match e a = true →
        ∃ k2, k2 < k ∧ (check_expected_errors expected actuals).assign[k2]? = some (some i)) := by
  rw [show check_expected_errors expected actuals =
    check_loop expected (expect_help expected) (expect_note expected) actuals
      (List.replicate expected.length false) from rfl]
  obtain ⟨H1, H2⟩ := check_loop_spec expected (expect_help expected) (expect_note expected)
    actuals (List.replicate expected.length false) (by simp)
  refine ⟨?_, ?_, ?_, ?_⟩
  · intro k i h
    exact (H1 k i h).1
  · intro k i h j hj e a he ha hm
    rcases (H1 k i h).2.2.2 j hj e a he ha hm with hleft | hr
    · exact absurd hleft (replicate_false_ne_some_true _ _)
    · exact hr
  · intro k1 k2 i h1 h2
    rcases Nat.lt_trichotomy k1 k2 with hlt | heq | hgt
    · exact absurd h1 ((H1 k2 i h2).2.2.1 k1 hlt)
    · exact heq
    · exact absurd h2 ((H1 k1 i h1).2.2.1 k2 hgt)
  · intro k a h ha i e he hm
    rcases H2 k a h ha i e he hm with hleft | hr
    · exact absurd hleft (replicate_false_ne_some_true _ _)
    · exact hr

/-- C5 witness: one expected error and one actual diagnostic on the same
line with matching kind and message substring are paired at index 0. -/
theorem c5_witness :
    ∃ e a, ([⟨4, some ErrorKind.Error, ("cannot find value").toList⟩] : List Error)[0]? =
        some e ∧
      ([⟨4, some ErrorKind.Error, ("cannot find value x in scope").toList⟩] :
        List Error)[0]? = some a ∧
      error_match e a = true :=
  (c5_matcher_greedy_first_fit
      [⟨4, some ErrorKind.Error, ("cannot find value").toList⟩]
      [⟨4, some ErrorKind.Error, ("cannot find value x in scope").toList⟩]).1
    0 0 (by decide)

/-- The unexpected list collects exactly the unmatched actual diagnostics
that pass the suppression filter, in actual order. -/
theorem check_loop_unexpected (E : List Error) (eh en : Bool) :
    ∀ (A : List Error) (F : List Bool),
      (check_loop E eh en A F).unexpected =
        (A.zip (check_loop E eh en A F).assign).filterMap
          (fun xa => match xa.2 with
            | none =>
              if is_unexpected_compiler_message xa.1 eh en then some xa.1 else none
            | some _ => none) := by
  intro A
  induction A with
  | nil => intro F; rfl
  | cons a A ih =>
    intro F
    cases hfind : find_match_idx E F a with
    | some idx =>
      have hC : check_loop E eh en (a :: A) F =
          ⟨some idx :: (check_loop E eh en A (F.set idx true)).assign,
           (check_loop E eh en A (F.set idx true)).found,
           (check_loop E eh en A (F.set idx true)).unexpected⟩ := by
        simp only [check_loop, hfind]
      rw [hC]
      simp only [List.zip_cons_cons, List.filterMap_cons]
      exact ih (F.set idx true)
    | none =>
      have hC : check_loop E eh en (a :: A) F =
          ⟨none :: (check_loop E eh en A F).assign,
           (check_loop E eh en A F).found,
           if is_unexpected_compiler_message a eh en then a :: (check_loop E eh en A F).unexpected
           else (check_loop E eh en A F).unexpected⟩ := by
        simp only [check_loop, hfind]
      rw [hC]
      simp only [List.zip_cons_cons, List.filterMap_cons]
      cases hu : is_unexpected_compiler_message a eh en
      · simp only [Bool.false_eq_true, if_false]
        exact ih F
      · simp only [if_true]
        rw [ih F]

/-- The suppression predicate in terms of the expected list. -/
theorem is_unexpected_iff (expected : List Error) (a : Error) :
    is_unexpected_compiler_message a (expect_help expected) (expect_note expected) = true ↔
      (a.kind = some ErrorKind.Error ∨ a.kind = some ErrorKind.Warning ∨
       (a.kind = some ErrorKind.Help ∧ ∃ e ∈ expected, e.kind = some ErrorKind.Help) ∨
       (a.kind = some ErrorKind.Note ∧ ∃ e ∈ expected, e.kind = some ErrorKind.Note)) := by
  unfold is_unexpected_compiler_message expect_help expect_note
  cases hak : a.kind with
  | none => simp
  | some k0 => cases k0 <;> simp [List.any_eq_true]

/-- C6: an actual diagnostic that matches no expected entry is reported as
unexpected exactly when it is an error or warning, or a help or note while
the expected list declares at least one help or note respectively;
suggestions and kind-less diagnostics are always suppressed. -/
theorem c6_unexpected_suppression (expected actuals : List Error) (k : Nat) (a : Error)
    (hk : (check_expected_errors expected actuals).assign[k]? = some none)
    (ha : actuals[k]? = some a) :
    a ∈ (check_expected_errors expected actuals).unexpected ↔
      (a.kind = some ErrorKind.Error ∨ a.kind = some ErrorKind.Warning ∨
       (a.kind = some ErrorKind.Help ∧ ∃ e ∈ expected, e.kind = some ErrorKind.Help) ∨
       (a.kind = some ErrorKind.Note ∧ ∃ e ∈ expected, e.kind = some ErrorKind.Note)) := by
  rw [← is_unexpected_iff]
  have hux := check_loop_unexpected expected (expect_help expected) (expect_note expected)
    actuals (List.replicate expected.length false)
  rw [show check_expected_errors expected actuals =
    check_loop expected (expect_help expected) (expect_note expected) actuals
      (List.replicate expected.length false) from rfl] at hk ⊢
  rw [hux]
  constructor
  · intro hmem
    rcases List.mem_filterMap.mp hmem with ⟨⟨x, o⟩, _, hfx⟩
    cases o with
    | some _ => cases hfx
    | none =>
      simp only at hfx
      split at hfx
      · rename_i hu
        cases hfx
        exact hu
      · cases hfx
  · intro hu
    have hz : (actuals.zip (check_loop expected (expect_help expected) (expect_note expected)
        actuals (List.replicate expected.length false)).assign)[k]? = some (a, none) :=
      List.getElem?_zip_eq_some.mpr ⟨ha, hk⟩
    refine List.mem_filterMap.mpr ⟨(a, none), ?_, ?_⟩
    · exact List.getElem?_mem hz
    · simp only
      rw [hu]
      simp

/-- C6 witness: an error-kind diagnostic with no expected entries is
reported as unexpected. -/
theorem c6_witness :
    (⟨1, some ErrorKind.Error, ("x").toList⟩ : Error) ∈
      (check_expected_errors [] [⟨1, some ErrorKind.Error, ("x").toList⟩]).unexpected :=
  (c6_unexpected_suppression [] [⟨1, some ErrorKind.Error, ("x").toList⟩] 0
      ⟨1, some ErrorKind.Error, ("x").toList⟩ (by decide) (by decide)).mpr
    (Or.inl rfl)

/-- Overwriting the front of the full ring with a chunk and rotating keeps
exactly the last TAIL_LEN bytes of the extended stream. -/
theorem tail_roll (stream data : List Nat) (hs : TAIL_LEN ≤ stream.length)
    (hd : data.length ≤ TAIL_LEN) :
    rotate_left_list (data ++ (stream.drop (stream.length - TAIL_LEN)).drop data.length)
        data.length =
      (stream ++ data).drop ((stream ++ data).length - TAIL_LEN) := by
  have htl : (stream.drop (stream.length - TAIL_LEN)).length = TAIL_LEN := by
    rw [List.length_drop]
    omega
  have hlen : (data ++ (stream.drop (stream.length - TAIL_LEN)).drop data.length).length =
      TAIL_LEN := by
    rw [List.length_append, List.length_drop, htl]
    omega
  unfold rotate_left_list
  rw [hlen]
  by_cases hdt : data.length = TAIL_LEN
  · have hmod : data.length % TAIL_LEN = 0 := by
      rw [hdt]
      exact Nat.mod_self _
    have htd : (stream.drop (stream.length - TAIL_LEN)).drop data.length = [] := by
      apply List.drop_eq_nil_of_le
      omega
    rw [hmod, htd]
    simp only [List.drop_zero, List.take_zero, List.append_nil]
    rw [List.length_append, show stream.length + data.length - TAIL_LEN = stream.length from by
      omega]
    exact (List.drop_left stream data).symm
  · have hmod : data.length % TAIL_LEN = data.length := Nat.mod_eq_of_lt (by omega)
    rw [hmod, List.drop_left, List.take_left]
    rw [List.drop_drop, List.length_append, List.drop_append_eq_append_drop]
    rw [show stream.length + data.length - TAIL_LEN - stream.length = 0 from by omega]
    rw [show stream.length - TAIL_LEN + data.length =
      stream.length + data.length - TAIL_LEN from by omega]
    rw [List.drop_zero]

/-- Once abbreviated, the head is frozen, the skipped counter tracks the
total length, and the ring holds the last TAIL_LEN bytes of the stream. -/
theorem fold_abbrev : ∀ (cs : List (List Nat)) (head stream : List Nat),
    HEAD_LEN + TAIL_LEN < stream.length →
    cs.foldl ProcOutput.extend
      (ProcOutput.Abbreviated head (stream.length - HEAD_LEN - TAIL_LEN)
        (stream.drop (stream.length - TAIL_LEN))) =
    ProcOutput.Abbreviated head ((stream ++ cs.flatten).length - HEAD_LEN - TAIL_LEN)
      ((stream ++ cs.flatten).drop ((stream ++ cs.flatten).length - TAIL_LEN)) := by
  intro cs
  induction cs with
  | nil =>
    intro head stream h
    rw [List.foldl_nil, List.flatten_nil, List.append_nil]
  | cons c cs ih =>
    intro head stream h
    rw [List.foldl_cons]
    have e1 : (stream ++ c).length - HEAD_LEN - TAIL_LEN =
        stream.length - HEAD_LEN - TAIL_LEN + c.length := by
      rw [List.length_append]
      omega
    have hext : ProcOutput.extend
        (ProcOutput.Abbreviated head (stream.length - HEAD_LEN - TAIL_LEN)
          (stream.drop (stream.length - TAIL_LEN))) c =
        ProcOutput.Abbreviated head ((stream ++ c).length - HEAD_LEN - TAIL_LEN)
          ((stream ++ c).drop ((stream ++ c).length - TAIL_LEN)) := by
      by_cases hd : c.length ≤ TAIL_LEN
      · show (if c.length ≤ TAIL_LEN then _ else _) = _
        rw [if_pos hd, tail_roll stream c (by omega) hd, e1]
      · have e2 : (stream ++ c).drop ((stream ++ c).length - TAIL_LEN) =
            c.drop (c.length - TAIL_LEN) := by
          rw [List.length_append, List.drop_append_eq_append_drop]
          rw [show stream.length + c.length - TAIL_LEN - stream.length =
            c.length - TAIL_LEN from by omega]
          rw [List.drop_eq_nil_of_le
            (show stream.length ≤ stream.length + c.length - TAIL_LEN from by omega)]
          rw [List.nil_append]
        show (if c.length ≤ TAIL_LEN then _ else _) = _
        rw [if_neg hd, e1, e2]
    rw [hext, ih head (stream ++ c) (by rw [List.length_append]; omega)]
    rw [List.flatten_cons, ← List.append_assoc]

/-- The capture state after any chunk sequence: verbatim while within the
limit; past the limit, the head freezes at the crossing length minus the
ring size, the skipped counter is the excess over head plus tail, and the
ring holds the last TAIL_LEN bytes. -/
theorem fold_full : ∀ (cs : List (List Nat)) (pre : List Nat),
    pre.length ≤ HEAD_LEN + TAIL_LEN →
    cs.foldl ProcOutput.extend (ProcOutput.Full pre) =
      if (pre ++ cs.flatten).length ≤ HEAD_LEN + TAIL_LEN then
        ProcOutput.Full (pre ++ cs.flatten)
      else
        ProcOutput.Abbreviated
          ((pre ++ cs.flatten).take (cross_len cs pre.length - TAIL_LEN))
          ((pre ++ cs.flatten).length - HEAD_LEN - TAIL_LEN)
          ((pre ++ cs.flatten).drop ((pre ++ cs.flatten).length - TAIL_LEN)) := by
  intro cs
  induction cs with
  | nil =>
    intro pre hpre
    rw [List.foldl_nil, List.flatten_nil, List.append_nil, if_pos hpre]
  | cons c cs ih =>
    intro pre hpre
    rw [List.foldl_cons]
    by_cases hb : (pre ++ c).length ≤ HEAD_LEN + TAIL_LEN
    · have hext : ProcOutput.extend (ProcOutput.Full pre) c = ProcOutput.Full (pre ++ c) := by
        show (if (pre ++ c).length ≤ HEAD_LEN + TAIL_LEN then _ else _) = _
        rw [if_pos hb]
      rw [hext, ih (pre ++ c) hb]
      have hcross : cross_len (c :: cs) pre.length = cross_len cs (pre ++ c).length := by
        show (if pre.length + c.length ≤ HEAD_LEN + TAIL_LEN then _ else _) = _
        rw [if_pos (by rw [List.length_append] at hb; exact hb), ← List.length_append]
      rw [hcross, List.flatten_cons, ← List.append_assoc]
    · have hlt : HEAD_LEN + TAIL_LEN < (pre ++ c).length := Nat.not_le.mp hb
      have hext : ProcOutput.extend (ProcOutput.Full pre) c =
          ProcOutput.Abbreviated ((pre ++ c).take ((pre ++ c).length - TAIL_LEN))
            ((pre ++ c).length - HEAD_LEN - TAIL_LEN)
            ((pre ++ c).drop ((pre ++ c).length - TAIL_LEN)) := by
        show (if (pre ++ c).length ≤ HEAD_LEN + TAIL_LEN then _ else _) = _
        rw [if_neg hb]
      rw [hext, fold_abbrev cs _ (pre ++ c) hlt]
      have hcond : ¬ ((pre ++ (c :: cs).flatten).length ≤ HEAD_LEN + TAIL_LEN) := by
        rw [List.flatten_cons, ← List.append_assoc, List.length_append]
        omega
      rw [if_neg hcond]
      have hcross : cross_len (c :: cs) pre.length = (pre ++ c).length := by
        show (if pre.length + c.length ≤ HEAD_LEN + TAIL_LEN then _ else _) = _
        rw [if_neg (by rw [List.length_append] at hb; exact hb), ← List.length_append]
      rw [hcross, List.flatten_cons, ← List.append_assoc]
      rw [List.take_append_of_le_length
        (show (pre ++ c).length - TAIL_LEN ≤ (pre ++ c).length from by omega)]

/-- A stream that fills the limit exactly, extended by a two-byte chunk,
is captured with a head of HEAD_LEN plus two bytes, so the result is never
the shape with exactly the first HEAD_LEN bytes. -/
theorem read2_two_byte_overshoot (R : List Nat)
    (hR : R.length = HEAD_LEN + TAIL_LEN) :
    read2_abbreviated [R, [1, 1]] ≠ spec_abbreviated (R ++ [1, 1]) := by
  have e_take : HEAD_LEN + TAIL_LEN + 2 - TAIL_LEN = HEAD_LEN + 2 := by omega
  have e_skip : HEAD_LEN + TAIL_LEN + 2 - HEAD_LEN - TAIL_LEN = 2 := by omega
  have hfl : ([] : List Nat) ++ ([R, [1, 1]] : List (List Nat)).flatten = R ++ [1, 1] := by
    rw [List.nil_append, List.flatten_cons, List.flatten_cons, List.flatten_nil,
      List.append_nil]
  have hlen2 : (R ++ [1, 1]).length = HEAD_LEN + TAIL_LEN + 2 := by
    rw [List.length_append, hR, show List.length ([1, 1] : List Nat) = 2 from rfl]
  have h2 : read2_abbreviated [R, [1, 1]] =
      (R ++ [1, 1]).take (HEAD_LEN + 2) ++ skip_marker 2 ++
        (R ++ [1, 1]).drop (HEAD_LEN + 2) := by
    unfold read2_abbreviated
    rw [fold_full [R, [1, 1]] [] (by rw [List.length_nil]; omega)]
    rw [hfl, hlen2]
    rw [if_neg (by omega)]
    have hc : cross_len [R, [1, 1]] (List.length ([] : List Nat)) =
        HEAD_LEN + TAIL_LEN + 2 := by
      rw [List.length_nil]
      show (if 0 + R.length ≤ HEAD_LEN + TAIL_LEN then _ else _) = _
      rw [if_pos (by omega)]
      show (if 0 + R.length + List.length [1, 1] ≤ HEAD_LEN + TAIL_LEN then _ else _) = _
      rw [if_neg (by rw [show List.length ([1, 1] : List Nat) = 2 from rfl]; omega)]
      rw [show List.length ([1, 1] : List Nat) = 2 from rfl, hR]
      omega
    rw [hc, e_take, e_skip]
    rfl
  have hspec : spec_abbreviated (R ++ [1, 1]) =
      (R ++ [1, 1]).take HEAD_LEN ++ skip_marker 2 ++
        (R ++ [1, 1]).drop (HEAD_LEN + 2) := by
    unfold spec_abbreviated
    rw [hlen2, e_take, e_skip]
  rw [h2, hspec]
  intro h
  have hl := congrArg List.length h
  simp only [List.length_append, List.length_take, List.length_drop, hlen2] at hl
  have hT : TAIL_LEN = 262144 := rfl
  omega

/-- C9 counterexample: with a first chunk filling HEAD_LEN + TAIL_LEN
bytes exactly and a second chunk of two bytes, the transition at
runtest.rs lines 1314 to 1316 keeps the first new_len - TAIL_LEN bytes as
the head, which is HEAD_LEN + 2 bytes here, so the final output is not
the first HEAD_LEN bytes followed by the marker and the last TAIL_LEN
bytes. -/
theorem c9_head_overshoot_counterexample :
    read2_abbreviated [List.replicate (HEAD_LEN + TAIL_LEN) 0, [1, 1]] ≠
      spec_abbreviated (List.replicate (HEAD_LEN + TAIL_LEN) 0 ++ [1, 1]) :=
  read2_two_byte_overshoot _ (by rw [List.length_replicate])

/-- C9 amended: while the total stays within HEAD_LEN + TAIL_LEN bytes
the capture is verbatim; once the limit is exceeded, the final bytes are
the first L - TAIL_LEN bytes of the stream, where L is the total length
at the end of the chunk that first exceeded the limit (so the head is at
least HEAD_LEN bytes and more when that chunk overshoots), then the
skipped marker counting total - HEAD_LEN - TAIL_LEN bytes, then the last
TAIL_LEN bytes of the stream. -/
theorem c9_read2_abbreviated_amended (chunks : List (List Nat)) :
    (chunks.flatten.length ≤ HEAD_LEN + TAIL_LEN →
      read2_abbreviated chunks = chunks.flatten) ∧
    (HEAD_LEN + TAIL_LEN < chunks.flatten.length →
      read2_abbreviated chunks =
        chunks.flatten.take (cross_len chunks 0 - TAIL_LEN) ++
          skip_marker (chunks.flatten.length - HEAD_LEN - TAIL_LEN) ++
          chunks.flatten.drop (chunks.flatten.length - TAIL_LEN)) := by
  have hf := fold_full chunks [] (by rw [List.length_nil]; omega)
  rw [List.nil_append, List.length_nil] at hf
  constructor
  · intro h
    unfold read2_abbreviated
    rw [hf, if_pos h]
    rfl
  · intro h
    unfold read2_abbreviated
    rw [hf, if_neg (by omega)]
    rfl

/-- C9 witness: a short chunk sequence within the limit is captured
verbatim. -/
theorem c9_witness : read2_abbreviated [[1, 2], [3]] = [1, 2, 3] :=
  ((c9_read2_abbreviated_amended [[1, 2], [3]]).1 (by decide)).trans rfl

end Compiletest
